import Mathlib

/-!
# Medster-local-llm: verification of the spec's claims against the source

Shallow embedding of the core of the Medster agent (`src/medster`):
Python values are modelled by `PyVal` (JSON-serializable data; numbers as
rationals), dictionaries by association lists in insertion order, and the
fallible external services (LLM backend, tool implementations, clock) by
explicit oracle records.  Each embedded definition mirrors one Python
function and is named after it.
-/

/-- A JSON-serializable Python value, as passed around by the agent:
`None`, booleans, numbers (modelled as rationals; float rounding is out of
scope), strings, lists and string-keyed dicts (association lists in
insertion order). -/
inductive PyVal where
  | none
  | bool (b : Bool)
  | num (q : ℚ)
  | str (s : String)
  | list (xs : List PyVal)
  | dict (kvs : List (String × PyVal))

/-- First-match lookup in a dict, as Python `d[k]` / `k in d` (a Python dict
has unique keys; on the association lists we keep the first binding). -/
def dictGet (kvs : List (String × PyVal)) (k : String) : Option PyVal :=
  (kvs.find? (fun p => p.1 == k)).map (fun p => p.2)

/-- Python truthiness test `bool(x)` on the modelled values. -/
def pyTruthy : PyVal → Bool
  | .none => false
  | .bool b => b
  | .num q => !(q == 0)
  | .str s => !s.isEmpty
  | .list xs => !xs.isEmpty
  | .dict kvs => !kvs.isEmpty

/-- Python `x == 0` on the modelled values (`False == 0` and `0.0 == 0` hold
in Python; strings, collections and `None` compare unequal to `0`). -/
def pyEqZero : PyVal → Bool
  | .num q => q == 0
  | .bool b => !b
  | _ => false

/-- Substring test: does `hay` contain `needle` as a contiguous run?
Models Python's `needle in hay` on strings. -/
def charsContain (hay needle : List Char) : Bool :=
  match hay with
  | [] => needle.isEmpty
  | _ :: t => needle.isPrefixOf hay || charsContain t needle

/-- Python `needle in hay` for strings. -/
def strContains (hay needle : String) : Bool :=
  charsContain hay.data needle.data

/-- ASCII lowercasing of one character (`str.lower()` restricted to the
ASCII range the indicator phrases live in). -/
def charLower (c : Char) : Char :=
  if 65 ≤ c.toNat ∧ c.toNat ≤ 90 then Char.ofNat (c.toNat + 32) else c

/-- Python `s.lower()` on the modelled strings. -/
def strLower (s : String) : String :=
  String.mk (s.data.map charLower)

/-!
## `model.is_empty_or_no_data_result` (src/medster/model.py, lines 366-405)
-/

/-- The `no_data_indicators` list of `is_empty_or_no_data_result`
(model.py lines 377-381): ten phrases. -/
def no_data_indicators : List String :=
  ["no data", "no results", "not found", "empty",
   "no patients", "no records", "0 patients", "0 results",
   "could not find", "unable to find"]

/-- Python `'k' in result and not result['k']` (model.py lines 386-389, for the
`patients` and `results` keys): key present with a falsy value. -/
def dictKeyFalsy (kvs : List (String × PyVal)) (k : String) : Bool :=
  match dictGet kvs k with
  | some v => !pyTruthy v
  | Option.none => false

/-- The `conditions` clause (model.py lines 390-395): value is an empty
list or an empty (falsy) dict. -/
def dictCondEmpty (kvs : List (String × PyVal)) : Bool :=
  match dictGet kvs "conditions" with
  | some (.list xs) => xs.isEmpty
  | some (.dict m) => m.isEmpty
  | _ => false

/-- Python `result.get(k, 1) == 0` (model.py lines 397-399, for `total_patients`
and `count`). -/
def dictKeyZero (kvs : List (String × PyVal)) (k : String) : Bool :=
  pyEqZero ((dictGet kvs k).getD (.num 1))

/-- Embedding of `model.is_empty_or_no_data_result` (model.py lines 366-405): classifies a
tool result as empty/no-data.  `None` is empty; a string is empty when its
lowercasing contains one of the ten indicator phrases; a dict is empty when
its `patients` or `results` value is falsy, its `conditions` value is an
empty list or empty dict, or its `total_patients` or `count` compares equal
to 0; an empty list is empty; everything else is usable. -/
def is_empty_or_no_data_result : PyVal → Bool
  | .none => true
  | .str s =>
      let l := strLower s
      no_data_indicators.any (fun ind => strContains l ind)
  | .dict kvs =>
      dictKeyFalsy kvs "patients" ||
      dictKeyFalsy kvs "results" ||
      dictCondEmpty kvs ||
      dictKeyZero kvs "total_patients" ||
      dictKeyZero kvs "count"
  | .list xs => xs.isEmpty
  | _ => false

/-- The emptiness classifier as the claim C3 words it: only eight phrases,
and the mapping clauses read as "value is an empty collection". Spelled out
for comparison with the source's classifier. -/
def isEmptySpecC3 : PyVal → Bool
  | .none => true
  | .str s =>
      let l := strLower s
      ["no data", "no results", "not found", "empty",
       "no patients", "0 results", "could not find", "unable to find"].any
        (fun ind => strContains l ind)
  | .dict kvs =>
      (match dictGet kvs "patients" with
        | some (.list xs) => xs.isEmpty
        | some (.dict m) => m.isEmpty
        | _ => false) ||
      (match dictGet kvs "results" with
        | some (.list xs) => xs.isEmpty
        | some (.dict m) => m.isEmpty
        | _ => false) ||
      (match dictGet kvs "conditions" with
        | some (.list xs) => xs.isEmpty
        | some (.dict m) => m.isEmpty
        | _ => false) ||
      pyEqZero ((dictGet kvs "total_patients").getD (.num 1)) ||
      pyEqZero ((dictGet kvs "count").getD (.num 1))
  | .list xs => xs.isEmpty
  | _ => false

/-!
## `primitives.aggregate_numeric` (src/medster/tools/analysis/primitives.py,
lines 148-168)
-/

/-- Digits of a decimal literal to a natural number; `Option.none` unless the
character list is nonempty and all digits. -/
def natOfDigits? (cs : List Char) : Option Nat :=
  if cs.isEmpty then Option.none
  else if cs.all Char.isDigit then
    some (cs.foldl (fun n c => 10 * n + (c.toNat - 48)) 0)
  else Option.none

/-- Unsigned decimal literal (`"12"` or `"12.5"`) to a rational.  Models the
core of Python's `float(str)`; exponent notation and the edge forms
`"12."` / `".5"` are elided. -/
def decOfChars? (cs : List Char) : Option ℚ :=
  match cs.splitOn '.' with
  | [w] => (natOfDigits? w).map (fun n => (n : ℚ))
  | [w, f] =>
      match natOfDigits? w, natOfDigits? f with
      | some wn, some fn => some ((wn : ℚ) + (fn : ℚ) / ((10 : ℚ) ^ f.length))
      | _, _ => Option.none
  | _ => Option.none

/-- Python `float(x)`: succeeds on numbers, booleans (`float(True) = 1.0`)
and numeric strings (optionally signed, surrounding whitespace stripped);
raises — modelled as `Option.none` — on `None`, lists and dicts. -/
def pyFloat? : PyVal → Option ℚ
  | .num q => some q
  | .bool b => some (if b then 1 else 0)
  | .str s =>
      (match s.trim.data with
        | '-' :: rest => (decOfChars? rest).map (fun q => -q)
        | '+' :: rest => decOfChars? rest
        | cs => decOfChars? cs)
  | _ => Option.none

/-- The numeric value of `item.get(field)` when `aggregate_numeric` keeps the
item: the field must be present, not `None`, and `float()`-parseable. -/
def fieldFloat? (field : String) (item : List (String × PyVal)) : Option ℚ :=
  match dictGet item field with
  | some v => pyFloat? v
  | Option.none => Option.none

/-- Minimum of a list of rationals (`min(values)`; 0 on the empty list,
which the source never reaches). -/
def listMin : List ℚ → ℚ
  | [] => 0
  | x :: xs => xs.foldl min x

/-- Maximum of a list of rationals (`max(values)`). -/
def listMax : List ℚ → ℚ
  | [] => 0
  | x :: xs => xs.foldl max x

/-- Python `sum(values)`: left fold from 0. -/
def listSum (xs : List ℚ) : ℚ := xs.foldl (· + ·) 0

/-- Embedding of `primitives.aggregate_numeric` (primitives.py lines 148-168): statistics
for a numeric field over a list of dict items.  Collects the values of
`field` that survive `float()`, and returns the five-key stats dict; all
five stats are 0 when no value parses. -/
def aggregate_numeric (items : List (List (String × PyVal))) (field : String) :
    List (String × ℚ) :=
  let values := items.filterMap (fieldFloat? field)
  if values.isEmpty then
    [("count", 0), ("min", 0), ("max", 0), ("mean", 0), ("sum", 0)]
  else
    [("count", (values.length : ℚ)),
     ("min", listMin values),
     ("max", listMax values),
     ("mean", listSum values / (values.length : ℚ)),
     ("sum", listSum values)]

/-!
## `model_capabilities` (src/medster/model_capabilities.py)
-/

/-- Embedding of `ToolCallingStrategy` (model_capabilities.py lines 13-18). -/
inductive ToolCallingStrategy where
  | native
  | promptJson
  | promptXml
  | noTools
deriving DecidableEq, Repr

/-- Embedding of `ModelCapability` (model_capabilities.py lines 21-49), with the
dataclass's field defaults. -/
structure ModelCapability where
  name : String
  displayName : String
  vision : Bool := false
  nativeTools : Bool := false
  structuredOutput : Bool := true
  toolStrategy : ToolCallingStrategy := .promptJson
  maxToolsPerCall : Nat := 1
  contextWindow : Nat := 8192
  recommendedMaxTokens : Nat := 4096
  inferenceSpeed : String := "medium"
  -- `tool_call_reliability`, a float in [0,1]; modelled in hundredths so
  -- comparisons stay kernel-decidable (0.7 -> 70).
  toolCallReliabilityPct : Nat := 70
  needsExplicitJsonFormat : Bool := true
  retryOnEmptyResponse : Bool := true
  maxRetriesOnFailure : Nat := 2
  prefersStructuredPrompts : Bool := true
  needsToolExamples : Bool := true
deriving DecidableEq, Repr

/-- Embedding of `MODEL_REGISTRY` (model_capabilities.py lines 53-104). -/
def MODEL_REGISTRY : List (String × ModelCapability) :=
  [("gpt-oss:20b",
    { name := "gpt-oss:20b", displayName := "GPT-OSS 20B (Text-Only)",
      vision := false, nativeTools := true, toolStrategy := .native,
      toolCallReliabilityPct := 85, needsExplicitJsonFormat := false,
      contextWindow := 16384, inferenceSpeed := "medium",
      needsToolExamples := false }),
   ("qwen3-vl:8b",
    { name := "qwen3-vl:8b", displayName := "Qwen3-VL 8B (Vision)",
      vision := true, nativeTools := false, toolStrategy := .promptJson,
      toolCallReliabilityPct := 60, needsExplicitJsonFormat := true,
      contextWindow := 32768, inferenceSpeed := "slow",
      needsToolExamples := true, maxRetriesOnFailure := 3 }),
   ("ministral-3:8b",
    { name := "ministral-3:8b", displayName := "Ministral 3 8B (Vision)",
      vision := true, nativeTools := true, toolStrategy := .native,
      toolCallReliabilityPct := 80, needsExplicitJsonFormat := false,
      contextWindow := 32768, inferenceSpeed := "medium",
      needsToolExamples := false }),
   ("llama3.1:8b",
    { name := "llama3.1:8b", displayName := "Llama 3.1 8B",
      vision := false, nativeTools := true, toolStrategy := .native,
      toolCallReliabilityPct := 75, contextWindow := 8192,
      inferenceSpeed := "fast" })]

/-- Embedding of `DEFAULT_CAPABILITY` (model_capabilities.py lines 107-117): the
conservative default returned for unknown model names. -/
def DEFAULT_CAPABILITY : ModelCapability :=
  { name := "unknown", displayName := "Unknown Model",
    vision := false, nativeTools := false, toolStrategy := .promptJson,
    toolCallReliabilityPct := 50, needsExplicitJsonFormat := true,
    needsToolExamples := true, maxRetriesOnFailure := 2 }

/-- Embedding of `get_model_capability` (model_capabilities.py lines 120-122):
`MODEL_REGISTRY.get(model_name, DEFAULT_CAPABILITY)`. -/
def get_model_capability (modelName : String) : ModelCapability :=
  ((MODEL_REGISTRY.find? (fun p => p.1 == modelName)).map (fun p => p.2)).getD
    DEFAULT_CAPABILITY



/-!
## `code_generator.generate_and_run_analysis`
(src/medster/tools/analysis/code_generator.py, lines 142-246)

The Python interpreter steps — `exec(code, sandbox_globals, sandbox_locals)`
and the subsequent `sandbox_locals["analyze"]()` call — are external to the
embedding; their observable outcome is the oracle `ExecOutcome` below, and
`generate_and_run_analysis` maps each outcome to the returned dict exactly
as the source's try/except structure does.
-/

/-- Outcome of running `analyze()`: a result value, or a raised exception
with its message and traceback. -/
inductive AnalyzeRun where
  | ok (result : PyVal)
  | exn (msg : String) (tb : String)

/-- Observable outcome of `exec(code, sandbox_globals, sandbox_locals)`
followed by the `"analyze" in sandbox_locals` check: a `SyntaxError` while
compiling `code`; another exception while executing its top level; or
completion, telling whether `analyze` was defined and (if called) how it
ran. -/
inductive ExecOutcome where
  | synErr (msg : String) (line : Nat)
  | topErr (msg : String) (tb : String)
  | done (definesAnalyze : Bool) (run : AnalyzeRun)

/-- Embedding of `generate_and_run_analysis` (code_generator.py lines 142-246): the
try/except structure mapping every execution outcome to a status dict. -/
def generate_and_run_analysis (desc : String) (patientLimit : Nat)
    (outcome : ExecOutcome) : List (String × PyVal) :=
  match outcome with
  | .synErr msg line =>
      [("status", .str "error"),
       ("error", .str ("Syntax error in generated code: " ++ msg)),
       ("line", .num line),
       ("description", .str desc)]
  | .topErr msg tb =>
      [("status", .str "error"),
       ("error", .str ("Execution error: " ++ msg)),
       ("traceback", .str tb),
       ("description", .str desc)]
  | .done false _ =>
      [("status", .str "error"),
       ("error", .str "Code must define a function called 'analyze()'"),
       ("description", .str desc)]
  | .done true (.exn msg tb) =>
      [("status", .str "error"),
       ("error", .str ("Execution error: " ++ msg)),
       ("traceback", .str tb),
       ("description", .str desc)]
  | .done true (.ok result) =>
      [("status", .str "success"),
       ("description", .str desc),
       ("patient_limit", .num patientLimit),
       ("result", result)]

/-!
## `api.batch_extract_observations`
(src/medster/tools/medical/api.py, lines 229-297; re-exported unchanged as
`primitives.batch_observations`, primitives.py lines 227-256)

`load_multiple_patients_sync` performs file I/O; it is modelled by a loader
function `String → Option (List Observation)` giving, per patient id, the
observation records `extract_observations` would produce from that
patient's bundle (`Option.none` for a missing/falsy bundle).
-/

/-- One record of `extract_observations` output (api.py lines 522-565),
restricted to the fields `batch_extract_observations` reads: the
observation's `code` text, its `value` and its `category` code list. -/
structure Observation where
  code : String
  value : PyVal
  category : List String

/-- Python `isinstance(value, (int, float))` (api.py line 275): numbers and — as
in Python, where `bool` subclasses `int` — booleans qualify. -/
def obsNumeric? : PyVal → Option ℚ
  | .num q => some q
  | .bool b => some (if b then 1 else 0)
  | _ => Option.none

/-- Key order of `dict(zip(ids, results))`: first occurrence of each id. -/
def dedupFirstAux (seen : List String) : List String → List String
  | [] => []
  | x :: t =>
      if seen.contains x then dedupFirstAux seen t
      else x :: dedupFirstAux (x :: seen) t

/-- First-occurrence deduplication of the id list. -/
def dedupFirst (ids : List String) : List String := dedupFirstAux [] ids

/-- Python `counts[k] = counts.get(k, 0) + 1` on an insertion-ordered dict. -/
def bumpCount (m : List (String × Nat)) (k : String) : List (String × Nat) :=
  match m with
  | [] => [(k, 1)]
  | (k', n) :: t => if k' = k then (k', n + 1) :: t else (k', n) :: bumpCount t k

/-- Python `numeric_values.setdefault(code, []).append(q)` on an insertion-ordered
dict. -/
def pushVal (m : List (String × List ℚ)) (k : String) (q : ℚ) :
    List (String × List ℚ) :=
  match m with
  | [] => [(k, [q])]
  | (k', vs) :: t =>
      if k' = k then (k', vs ++ [q]) :: t else (k', vs) :: pushVal t k q

/-- The accumulators of the `for pid, bundle in bundles.items()` loop
(api.py lines 247-278). -/
structure ObsAccum where
  observation_counts : List (String × Nat)
  patient_observations : List (String × List Observation)
  numeric_values : List (String × List ℚ)

/-- The body of the inner `for obs in observations` loop (api.py lines
269-278): count the code, and collect the value when numeric. -/
def obsStep (acc : ObsAccum) (o : Observation) : ObsAccum :=
  { acc with
    observation_counts := bumpCount acc.observation_counts o.code,
    numeric_values :=
      match obsNumeric? o.value with
      | some q => pushVal acc.numeric_values o.code q
      | Option.none => acc.numeric_values }

/-- One iteration of the patient loop (api.py lines 251-278): skip missing
bundles, apply the category filter (case-insensitive membership) and the
code filter (case-insensitive substring), then record and aggregate the
surviving observations. -/
def patientStep (category codeFilter : Option String) (acc : ObsAccum)
    (pid : String) (bundle : Option (List Observation)) : ObsAccum :=
  match bundle with
  | Option.none => acc
  | some observations =>
      let obs1 : List Observation :=
        match category with
        | some c =>
            observations.filter
              (fun o => (o.category.map strLower).contains (strLower c))
        | Option.none => observations
      let obs2 : List Observation :=
        match codeFilter with
        | some f =>
            obs1.filter (fun o => strContains (strLower o.code) (strLower f))
        | Option.none => obs1
      if obs2.isEmpty then acc
      else
        obs2.foldl obsStep
          { acc with
            patient_observations := acc.patient_observations ++ [(pid, obs2)] }

/-- The whole patient loop of `batch_extract_observations`. -/
def batchObsAccum (ids : List String)
    (load : String → Option (List Observation))
    (category codeFilter : Option String) : ObsAccum :=
  (dedupFirst ids).foldl
    (fun acc pid => patientStep category codeFilter acc pid (load pid))
    ⟨[], [], []⟩

/-- The per-code stats dict (api.py lines 283-289): count, min, max, mean —
and no sum. -/
def obsStats (vs : List ℚ) : List (String × ℚ) :=
  [("count", (vs.length : ℚ)), ("min", listMin vs), ("max", listMax vs),
   ("mean", listSum vs / (vs.length : ℚ))]

/-- Stable insertion into a count list sorted descending by count
(`sorted(counts.items(), key=lambda x: x[1], reverse=True)`). -/
def insertCountDesc (p : String × Nat) :
    List (String × Nat) → List (String × Nat)
  | [] => [p]
  | q :: t => if q.2 ≤ p.2 then p :: q :: t else q :: insertCountDesc p t

/-- Sort a count list descending by count, stably. -/
def sortCountsDesc (l : List (String × Nat)) : List (String × Nat) :=
  l.foldr insertCountDesc []

/-- The result dict of `batch_extract_observations` (api.py lines
291-297). -/
structure BatchObsResult where
  patients_analyzed : Nat
  patients_with_data : Nat
  observation_counts : List (String × Nat)
  numeric_stats : List (String × List (String × ℚ))
  patient_observations : List (String × List Observation)

/-- Embedding of `batch_extract_observations` (api.py lines 229-297). -/
def batch_extract_observations (ids : List String)
    (load : String → Option (List Observation))
    (category codeFilter : Option String) : BatchObsResult :=
  let acc := batchObsAccum ids load category codeFilter
  { patients_analyzed := ids.length,
    patients_with_data := acc.patient_observations.length,
    observation_counts := sortCountsDesc acc.observation_counts,
    numeric_stats :=
      acc.numeric_values.filterMap
        (fun p => if p.2.isEmpty then Option.none else some (p.1, obsStats p.2)),
    patient_observations := acc.patient_observations }


/-!
## JSON serialization and the tool-call parser
(`model.parse_tool_call_from_json`, src/medster/model.py lines 31-77)

The embedding models `json.dumps`/`json.loads` over `JVal` and the three
regex extraction patterns of the parser.
-/

/-- JSON whitespace characters accepted by `json.loads`. -/
def wsChar (c : Char) : Bool := c == ' ' || c == '\n' || c == '\t' || c == '\r'

/-- Skip leading JSON whitespace. -/
def skipWs (cs : List Char) : List Char := cs.dropWhile wsChar

/-- A JSON value as `json.loads`/`json.dumps` handle it; numeric literals
are modelled as integers (float printing/parsing is out of scope). -/
inductive JVal where
  | jnull
  | jbool (b : Bool)
  | jnum (n : Int)
  | jstr (s : String)
  | jarr (xs : List JVal)
  | jobj (kvs : List (String × JVal))

mutual
/-- Structural size of a JSON value, used as parser fuel bound. -/
def jsize : JVal → Nat
  | .jnull => 1
  | .jbool _ => 1
  | .jnum _ => 1
  | .jstr _ => 1
  | .jarr xs => 1 + sizeL xs
  | .jobj ms => 1 + sizeO ms
/-- Size of an array tail. -/
def sizeL : List JVal → Nat
  | [] => 1
  | x :: t => 1 + jsize x + sizeL t
/-- Size of an object tail. -/
def sizeO : List (String × JVal) → Nat
  | [] => 1
  | m :: t => 1 + jsize m.2 + sizeO t
end

/-- The decimal digit characters. -/
def digitChar (d : Nat) : Char :=
  match d with
  | 0 => '0' | 1 => '1' | 2 => '2' | 3 => '3' | 4 => '4'
  | 5 => '5' | 6 => '6' | 7 => '7' | 8 => '8' | _ => '9'

/-- Decimal digits, fuel-indexed so the kernel can evaluate it (the fuel
only needs to exceed the number). -/
def natDigitsAux (fuel : Nat) (n : Nat) : List Char :=
  match fuel with
  | 0 => []
  | f + 1 =>
    if n < 10 then [digitChar n]
    else natDigitsAux f (n / 10) ++ [digitChar (n % 10)]

/-- Decimal digits of a natural number, most significant first. -/
def natDigits (n : Nat) : List Char := natDigitsAux (n + 1) n

/-- Python `json.dumps` of an integer literal. -/
def serInt (n : Int) : List Char :=
  if n < 0 then '-' :: natDigits n.natAbs else natDigits n.natAbs

/-- Python `json.dumps` escaping of one string character (the escapes the model
round-trips: quote, backslash, newline, tab, carriage return). -/
def escChar (c : Char) : List Char :=
  if c = '"' then ['\\', '"']
  else if c = '\\' then ['\\', '\\']
  else if c = '\n' then ['\\', 'n']
  else if c = '\t' then ['\\', 't']
  else if c = '\r' then ['\\', 'r']
  else [c]

/-- Python `json.dumps` of a string literal. -/
def serStr (s : String) : List Char :=
  '"' :: ((s.data.map escChar).flatten ++ ['"'])

mutual
/-- Python `json.dumps(v)` with the default separators `", "` and `": "`. -/
def serVal : JVal → List Char
  | .jnull => ['n', 'u', 'l', 'l']
  | .jbool true => ['t', 'r', 'u', 'e']
  | .jbool false => ['f', 'a', 'l', 's', 'e']
  | .jnum n => serInt n
  | .jstr s => serStr s
  | .jarr [] => ['[', ']']
  | .jarr (x :: xs) => '[' :: (serVal x ++ serArrRest xs)
  | .jobj [] => ['{', '}']
  | .jobj (m :: ms) =>
      '{' :: (serStr m.1 ++ ':' :: ' ' :: (serVal m.2 ++ serObjRest ms))
/-- Serialization of the remaining array elements, closing the bracket. -/
def serArrRest : List JVal → List Char
  | [] => [']']
  | y :: t => ',' :: ' ' :: (serVal y ++ serArrRest t)
/-- Serialization of the remaining object members, closing the brace. -/
def serObjRest : List (String × JVal) → List Char
  | [] => ['}']
  | m :: t =>
      ',' :: ' ' :: (serStr m.1 ++ ':' :: ' ' :: (serVal m.2 ++ serObjRest t))
end

/-- Un-escaping of one escaped character in a JSON string. -/
def unescape (e : Char) : Option Char :=
  if e = '"' then some '"'
  else if e = '\\' then some '\\'
  else if e = '/' then some '/'
  else if e = 'n' then some '\n'
  else if e = 't' then some '\t'
  else if e = 'r' then some '\r'
  else Option.none

/-- Parse the body of a JSON string after the opening quote. -/
def parseStrAux (acc : List Char) : List Char → Option (String × List Char)
  | [] => Option.none
  | c :: rest =>
    if c = '"' then some (String.mk acc.reverse, rest)
    else if c = '\\' then
      match rest with
      | [] => Option.none
      | e :: rest2 =>
        match unescape e with
        | some u => parseStrAux (u :: acc) rest2
        | Option.none => Option.none
    else parseStrAux (c :: acc) rest

/-- Returns `true` when the input starts with a decimal digit. -/
def headDigit : List Char → Bool
  | [] => false
  | c :: _ => c.isDigit

/-- Consume a maximal run of digits, accumulating their value. -/
def parseNatAux (acc : Nat) : List Char → Nat × List Char
  | [] => (acc, [])
  | c :: rest =>
    if c.isDigit then parseNatAux (acc * 10 + (c.toNat - 48)) rest
    else (acc, c :: rest)

/-- Parse a nonempty digit run. -/
def parseNat1 : List Char → Option (Nat × List Char)
  | [] => Option.none
  | c :: rest =>
    if c.isDigit then some (parseNatAux (c.toNat - 48) rest) else Option.none

mutual
/-- Recursive-descent JSON value parser (fuel-indexed), modelling
`json.loads`' grammar on the constructs the serializer emits. -/
def parseVal : Nat → List Char → Option (JVal × List Char)
  | 0, _ => Option.none
  | f + 1, cs =>
    match skipWs cs with
    | [] => Option.none
    | c :: rest =>
      if c.isDigit then
        (parseNat1 (c :: rest)).map (fun p => (.jnum (p.1 : Int), p.2))
      else
        match c :: rest with
        | 'n' :: 'u' :: 'l' :: 'l' :: r => some (.jnull, r)
        | 't' :: 'r' :: 'u' :: 'e' :: r => some (.jbool true, r)
        | 'f' :: 'a' :: 'l' :: 's' :: 'e' :: r => some (.jbool false, r)
        | '"' :: r => (parseStrAux [] r).map (fun p => (.jstr p.1, p.2))
        | '-' :: r => (parseNat1 r).map (fun p => (.jnum (-(p.1 : Int)), p.2))
        | '[' :: r =>
            (parseArrItems f (skipWs r)).map (fun p => (.jarr p.1, p.2))
        | '{' :: r =>
            (parseObjItems f (skipWs r)).map (fun p => (.jobj p.1, p.2))
        | _ => Option.none
/-- Parse array elements up to the closing bracket (the input starts at a
non-whitespace character). -/
def parseArrItems : Nat → List Char → Option (List JVal × List Char)
  | 0, _ => Option.none
  | f + 1, cs =>
    match cs with
    | [] => Option.none
    | c :: r =>
      if c = ']' then some ([], r)
      else
        match parseVal f (c :: r) with
        | Option.none => Option.none
        | some (v, r1) =>
          match skipWs r1 with
          | ',' :: r2 =>
              (parseArrItems f (skipWs r2)).map (fun p => (v :: p.1, p.2))
          | ']' :: r2 => some ([v], r2)
          | _ => Option.none
/-- Parse object members up to the closing brace (the input starts at a
non-whitespace character). -/
def parseObjItems : Nat → List Char → Option (List (String × JVal) × List Char)
  | 0, _ => Option.none
  | f + 1, cs =>
    match cs with
    | '}' :: r => some ([], r)
    | '"' :: r =>
      (match parseStrAux [] r with
       | Option.none => Option.none
       | some (k, r1) =>
         match skipWs r1 with
         | ':' :: r2 =>
           (match parseVal f (skipWs r2) with
            | Option.none => Option.none
            | some (v, r3) =>
              match skipWs r3 with
              | ',' :: r4 =>
                  (parseObjItems f (skipWs r4)).map
                    (fun p => ((k, v) :: p.1, p.2))
              | '}' :: r4 => some ([(k, v)], r4)
              | _ => Option.none)
         | _ => Option.none)
    | _ => Option.none
end

/-- Python `json.loads(s)`: parse one value, requiring only whitespace after it.
The fuel `2 * length + 2` dominates the size of any value the input can
serialize (`jsize_le_serVal`). -/
def jsonLoads (s : String) : Option JVal :=
  match parseVal (2 * s.data.length + 2) s.data with
  | some (v, rest) => if (skipWs rest).isEmpty then some v else Option.none
  | Option.none => Option.none

/-- Returns `true` when the input is nonempty and starts with a non-whitespace
character. -/
def headNotWs : List Char → Bool
  | [] => false
  | c :: _ => !wsChar c

/-- Whether a number may be followed directly by this input: required not
to start with a digit (digit runs are parsed maximally). -/
def numOk : JVal → List Char → Bool
  | .jnum _, rest => !headDigit rest
  | _, _ => true

/-- Strip leading and trailing JSON whitespace (Python `str.strip()` on the
whitespace kinds the model handles). -/
def trimChars (cs : List Char) : List Char :=
  ((cs.dropWhile wsChar).reverse.dropWhile wsChar).reverse

/-- Split around the first occurrence of `pat`: returns the part before it
and the part after it. -/
def splitFirst (cs pat : List Char) : Option (List Char × List Char) :=
  match cs with
  | [] => if pat.isEmpty then some ([], []) else Option.none
  | c :: t =>
    if pat.isPrefixOf (c :: t) then some ([], (c :: t).drop pat.length)
    else (splitFirst t pat).map (fun p => (c :: p.1, p.2))

/-- Matches of a non-overlapping lazy fenced-block pattern
(`` ```tag\s*([\s\S]*?)\s*``` ``): the stripped text between each opener
and the next closing fence. -/
def fenceCandsAux (tag : List Char) : Nat → List Char → List (List Char)
  | 0, _ => []
  | fuel + 1, cs =>
    match splitFirst cs ('`' :: '`' :: '`' :: tag) with
    | Option.none => []
    | some (_, afterOpen) =>
      match splitFirst afterOpen ['`', '`', '`'] with
      | Option.none => []
      | some (body, afterClose) =>
          trimChars body :: fenceCandsAux tag fuel afterClose

/-- All matches of the fenced-block pattern with the given tag. -/
def fenceCands (tag : List Char) (cs : List Char) : List (List Char) :=
  fenceCandsAux tag (cs.length + 1) cs

/-- The single greedy match of `\{[\s\S]*\}`: from the first `{` to the
last `}`, when the latter comes after the former. -/
def braceSlice (cs : List Char) : Option (List Char) :=
  match cs.findIdx? (fun c => c == '{') with
  | Option.none => Option.none
  | some i =>
    match cs.reverse.findIdx? (fun c => c == '}') with
    | Option.none => Option.none
    | some jr =>
      let j := cs.length - 1 - jr
      if i < j then some ((cs.drop i).take (j + 1 - i)) else Option.none

/-- First-match lookup in a parsed JSON object. -/
def jobjGet (kvs : List (String × JVal)) (k : String) : Option JVal :=
  (kvs.find? (fun p => p.1 == k)).map (fun p => p.2)

/-- The record `parse_tool_call_from_json` returns on success
(model.py lines 68-72). -/
structure ToolCallRecord where
  tool_name : JVal
  tool_args : JVal
  reasoning : JVal

/-- One candidate attempt of the parser loop (model.py lines 56-75):
strip, require a leading `{`, `json.loads`, and require a `tool_name`
key; on success build the record with its defaults. -/
def tryCandidate (cand : List Char) : Option ToolCallRecord :=
  let c := trimChars cand
  match c with
  | '{' :: _ =>
    (match jsonLoads (String.mk c) with
     | some (.jobj kvs) =>
       (match jobjGet kvs "tool_name" with
        | some _ =>
            some ⟨(jobjGet kvs "tool_name").getD .jnull,
                  (jobjGet kvs "tool_args").getD (.jobj []),
                  (jobjGet kvs "reasoning").getD (.jstr "")⟩
        | Option.none => Option.none)
     | _ => Option.none)
  | _ => Option.none

/-- Embedding of `model.parse_tool_call_from_json` (model.py lines 31-77): try the
```json fenced pattern, then any fenced pattern, then the greedy brace
slice; the first candidate that parses to an object with a `tool_name`
key wins. -/
def parse_tool_call_from_json (content : String) : Option ToolCallRecord :=
  if content.data.isEmpty then Option.none
  else
    let cs := trimChars content.data
    let cands :=
      fenceCands ['j', 's', 'o', 'n'] cs ++ fenceCands [] cs ++
      (match braceSlice cs with
       | some c => [c]
       | Option.none => [])
    cands.findSome? tryCandidate

/-- The demo record for the C4 witness. -/
def c4kvs : List (String × JVal) :=
  [("tool_name", .jstr "list_patients"),
   ("tool_args", .jobj [("limit", .jnum 3)])]


/-!
## The agent loop (`Agent.run`, src/medster/agent.py lines 295-481)

The loop's collaborators are oracles in an `AgentEnv`, each indexed by its
own call counter: the LLM calls (planning, action selection, task/goal
validation, argument optimization, final answer), the tool implementations,
and `time.time()`.  `Except.error` models a raised Python exception.  The
helper modules absent from the snapshot (`medster.utils.context_manager`'s
`manage_context_size`/`format_output_for_context`, modelled from the spec:
they turn tool outputs into history strings and never raise) are opaque
functions of the environment.  Debug-only logger lines are elided; the log
lines the control flow or the claims mention are kept verbatim.
-/

/-- Modelled from the spec: a `Task` record of `medster.schemas`
(`{id: int, description: string, done: bool}`). -/
structure AgentTask where
  id : Int
  description : String
  done : Bool

/-- One tool call carried on a model message (`{name, args}`); the
arguments are modelled by their canonical string rendering, which is all
the loop's bookkeeping (action signatures, history formatting) reads. -/
structure AgentToolCall where
  name : String
  args : String

/-- An `AIMessage` as the loop reads it: `content` and `tool_calls`. -/
structure AgentMessage where
  content : String
  toolCalls : List AgentToolCall

/-- A `RetryContext` (agent.py lines 446-450):
`{tool_name, tool_args, result}`. -/
structure RetryCtx where
  toolName : String
  toolArgs : String
  result : PyVal

/-- The observable events of a run, recorded for the theorems: an
action-selection call (with the retry context it was passed), a tool
dispatch, a retry-context creation, and a loop detection — each tagged
with the id of the task being worked on. -/
inductive AgentEvent where
  | evAsk (taskId : Int) (retryCtx : Option RetryCtx)
  | evDispatch (taskId : Int) (name args : String)
  | evRetryCreated (taskId : Int) (name args : String)
  | evLoopDetected (taskId : Int)

/-- The `Agent.__init__` parameters (agent.py lines 41-54) plus the
capability flag `skip_arg_optimization` the loop reads. -/
structure AgentConfig where
  maxSteps : Nat := 20
  maxStepsPerTask : Nat := 5
  maxRetriesOnNoData : Nat := 2
  taskTimeoutSeconds : Nat := 300
  skipArgOptimization : Bool := false

/-- The environment of one `run(query)`: every external service, as
oracles indexed by per-service call counters. -/
structure AgentEnv where
  planOutcome : Except String (List AgentTask)
  ask : Nat → Except String AgentMessage
  taskDone : Nat → Except String Bool
  goalAchieved : Nat → Except String Bool
  optimize : Nat → Except String String
  registry : List String
  toolRun : Nat → Except String PyVal
  clock : Nat → Nat
  answer : Except String String
  formatOutput : String → String → PyVal → String
  manageContext : List String → String

/-- The session state owned by `Agent.run`, together with the oracle call
counters and the observation channels (log lines and events). -/
structure AgentState where
  tasks : List AgentTask
  curIdx : Nat
  stepCount : Nat
  lastActions : List String
  taskOutputs : List String
  taskStepOutputs : List String
  retryCount : Nat
  retryCtx : Option RetryCtx
  perTaskSteps : Nat
  agentErrors : Nat
  taskStart : Nat
  askIdx : Nat
  doneIdx : Nat
  goalIdx : Nat
  optIdx : Nat
  toolIdx : Nat
  clockIdx : Nat
  logs : List String
  trace : List AgentEvent

/-- Id of the task currently being worked on. -/
def curTaskId (st : AgentState) : Int :=
  ((st.tasks.get? st.curIdx).map (fun t => t.id)).getD 0

/-- Set `task.done := True` on the current task. -/
def markCurDone (st : AgentState) : AgentState :=
  match st.tasks.get? st.curIdx with
  | some t => { st with tasks := st.tasks.set st.curIdx { t with done := true } }
  | Option.none => st

/-- Python `step_count += 1; per_task_steps += 1` (agent.py lines 467-468). -/
def incSteps (st : AgentState) : AgentState :=
  { st with stepCount := st.stepCount + 1, perTaskSteps := st.perTaskSteps + 1 }

/-- The argument value after `optimize_tool_args` (agent.py lines 246-275,
420-423): the original arguments when the capability skips optimization or
the tool is unknown; otherwise the optimizer's output, falling back to the
originals when the optimizing LLM call raises. -/
def optimizedArgsOf (cfg : AgentConfig) (env : AgentEnv) (st : AgentState)
    (call : AgentToolCall) : String :=
  if cfg.skipArgOptimization then call.args
  else if env.registry.contains call.name then
    match env.optimize st.optIdx with
    | .ok a => a
    | .error _ => call.args
  else call.args

/-- The state after the optimization step: one optimizer call is consumed
exactly when optimization runs and the tool exists. -/
def optStateAfter (cfg : AgentConfig) (env : AgentEnv) (st : AgentState)
    (call : AgentToolCall) : AgentState :=
  if cfg.skipArgOptimization then st
  else if env.registry.contains call.name then
    { st with optIdx := st.optIdx + 1 }
  else st

/-- Push an action signature into the ring and keep the last four
(agent.py lines 428-430). -/
def pushRing (ring : List String) (sig : String) : List String :=
  let r := ring ++ [sig]
  if 4 < r.length then r.drop (r.length - 4) else r

/-- Loop detection (agent.py line 431):
`len(set(last_actions)) == 1 and len(last_actions) == 4`. -/
def ringDetect (ring : List String) : Bool :=
  match ring with
  | [] => false
  | a :: t => ring.length == 4 && t.all (fun b => b == a)

/-- Outcome of handling one tool call: continue with the next call, or
break out of the tool-call loop. -/
inductive CallOutcome where
  | proceed
  | brk

/-- The body of `for tool_call in ai_message.tool_calls` (agent.py lines
410-468): log, optimize arguments, push the action signature and detect
loops (marking the task done and breaking without dispatch), then resolve
the tool — dispatching it and either creating a retry context on an empty
result (skipping the history append and the step counters), appending the
formatted output, or appending the error string when the tool raises; an
unknown tool is only logged.  The step counters advance in every
non-retry, non-detection path. -/
def processCall (cfg : AgentConfig) (env : AgentEnv) (st : AgentState)
    (call : AgentToolCall) : AgentState × CallOutcome :=
  let args := optimizedArgsOf cfg env st call
  let sig := call.name ++ ":" ++ args
  let ring := pushRing st.lastActions sig
  let st := optStateAfter cfg env st call
  let st := { st with
    logs := st.logs ++ [s!"Executing tool: {call.name} with args: {call.args}"],
    lastActions := ring }
  if ringDetect ring then
    (markCurDone { st with
        logs := st.logs ++ ["Detected repeating action - aborting to avoid loop."],
        trace := st.trace ++ [AgentEvent.evLoopDetected (curTaskId st)] },
     .brk)
  else if env.registry.contains call.name then
    match env.toolRun st.toolIdx with
    | .ok result =>
      let st := { st with
        toolIdx := st.toolIdx + 1,
        trace := st.trace ++ [AgentEvent.evDispatch (curTaskId st) call.name args] }
      if is_empty_or_no_data_result result = true ∧
          st.retryCount < cfg.maxRetriesOnNoData then
        ({ st with
           retryCount := st.retryCount + 1,
           logs := st.logs ++ ["Tool returned no data - retry"],
           retryCtx := some ⟨call.name, args, result⟩,
           trace := st.trace ++ [AgentEvent.evRetryCreated (curTaskId st) call.name args] },
         .proceed)
      else
        let out := env.formatOutput call.name args result
        (incSteps { st with
           taskOutputs := st.taskOutputs ++ [out],
           taskStepOutputs := st.taskStepOutputs ++ [out] },
         .proceed)
    | .error e =>
      let st := { st with
        toolIdx := st.toolIdx + 1,
        trace := st.trace ++ [AgentEvent.evDispatch (curTaskId st) call.name args] }
      let out := s!"Error from {call.name} with args {args}: {e}"
      (incSteps { st with
         logs := st.logs ++ [s!"Tool execution failed: {e}"],
         taskOutputs := st.taskOutputs ++ [out],
         taskStepOutputs := st.taskStepOutputs ++ [out] },
       .proceed)
  else
    (incSteps { st with logs := st.logs ++ [s!"Invalid tool: {call.name}"] },
     .proceed)

/-- The tool-call loop (agent.py lines 410-468): each iteration first
checks the global step budget; a detection break stops the remaining
calls. -/
def execCalls (cfg : AgentConfig) (env : AgentEnv) :
    List AgentToolCall → AgentState → AgentState
  | [], st => st
  | c :: rest, st =>
    if cfg.maxSteps ≤ st.stepCount then st
    else
      match processCall cfg env st c with
      | (st1, .brk) => st1
      | (st1, .proceed) => execCalls cfg env rest st1

/-- Embedding of `ask_for_actions` (agent.py lines 122-188): one action-selection LLM
call; an exception is absorbed into an `AGENT_ERROR:` message.  The event
records the retry context that was threaded into the call. -/
def askForActions (env : AgentEnv) (st : AgentState) :
    AgentMessage × AgentState :=
  let msg := match env.ask st.askIdx with
    | .ok m => m
    | .error e => ⟨"AGENT_ERROR: " ++ e, []⟩
  (msg, { st with
    askIdx := st.askIdx + 1,
    trace := st.trace ++ [AgentEvent.evAsk (curTaskId st) st.retryCtx] })

/-- Embedding of `ask_if_done` (agent.py lines 192-206): an exception yields `False`. -/
def askIfDone (env : AgentEnv) (st : AgentState) : Bool × AgentState :=
  ((match env.taskDone st.doneIdx with
    | .ok b => b
    | .error _ => false),
   { st with doneIdx := st.doneIdx + 1 })

/-- Embedding of `is_goal_achieved` (agent.py lines 210-242): an exception yields
`False`. -/
def askGoal (env : AgentEnv) (st : AgentState) : Bool × AgentState :=
  ((match env.goalAchieved st.goalIdx with
    | .ok b => b
    | .error _ => false),
   { st with goalIdx := st.goalIdx + 1 })

/-- The inner step loop `while per_task_steps < max_steps_per_task`
(agent.py lines 342-473), fuel-indexed (`Option.none` = fuel exhausted):
timeout and global-budget checks, action selection with retry-context
threading and clearing, the consecutive-agent-error counter with forced
completion at three, completion on a reply without tool calls, the
tool-call loop, and the task validator. -/
def innerLoop (cfg : AgentConfig) (env : AgentEnv) :
    Nat → AgentState → Option AgentState
  | 0, _ => Option.none
  | fuel + 1, st =>
    if st.perTaskSteps < cfg.maxStepsPerTask then
      let now := env.clock st.clockIdx
      let st := { st with clockIdx := st.clockIdx + 1 }
      if cfg.taskTimeoutSeconds < now - st.taskStart then
        some { st with logs := st.logs ++ ["Task timeout - moving to next task"] }
      else if cfg.maxSteps ≤ st.stepCount then
        some { st with logs := st.logs ++ ["Global max steps reached - stopping."] }
      else
        let _ctx := env.manageContext (st.taskOutputs ++ st.taskStepOutputs)
        let ar := askForActions env st
        let msg := ar.1
        let st : AgentState := { ar.2 with retryCtx := Option.none }
        if "AGENT_ERROR:".data.isPrefixOf msg.content.data then
          let st := { st with agentErrors := st.agentErrors + 1 }
          if 3 ≤ st.agentErrors then
            some (markCurDone { st with logs := st.logs ++
              ["Max agent errors reached - marking task as complete"] })
          else innerLoop cfg env fuel st
        else
          let st := { st with agentErrors := 0 }
          if msg.toolCalls.isEmpty then
            some (markCurDone st)
          else
            let st := execCalls cfg env msg.toolCalls st
            let vd := askIfDone env st
            if vd.1 then some (markCurDone vd.2)
            else innerLoop cfg env fuel vd.2
    else some st

/-- Index of the first not-done task
(`next(t for t in tasks if not t.done)`). -/
def firstNotDoneIdx (tasks : List AgentTask) : Nat :=
  tasks.findIdx (fun t => !t.done)

/-- The outer task loop `while any(not t.done for t in tasks)` (agent.py
lines 326-477): global budget check, per-task state reset (including the
retry counter and context), the inner loop, and — only when the task ended
done — the goal meta-validator, whose `True` exits the loop. -/
def outerLoop (cfg : AgentConfig) (env : AgentEnv) :
    Nat → AgentState → Option AgentState
  | 0, _ => Option.none
  | fuel + 1, st =>
    if st.tasks.any (fun t => !t.done) then
      if cfg.maxSteps ≤ st.stepCount then
        some { st with logs := st.logs ++
          ["Global max steps reached - stopping to prevent runaway loop."] }
      else
        let idx := firstNotDoneIdx st.tasks
        let now := env.clock st.clockIdx
        let st := { st with
          curIdx := idx, clockIdx := st.clockIdx + 1,
          perTaskSteps := 0, taskStepOutputs := [], retryCount := 0,
          retryCtx := Option.none, agentErrors := 0, taskStart := now }
        match innerLoop cfg env fuel st with
        | Option.none => Option.none
        | some st1 =>
          if (((st1.tasks.get? idx).map (fun t => t.done)).getD false) then
            let vg := askGoal env st1
            if vg.1 then some vg.2
            else outerLoop cfg env fuel vg.2
          else outerLoop cfg env fuel st1
    else some st

/-- The fresh session state of one `run(query)`. -/
def initialState (tasks : List AgentTask) : AgentState :=
  { tasks := tasks, curIdx := 0, stepCount := 0, lastActions := [],
    taskOutputs := [], taskStepOutputs := [], retryCount := 0,
    retryCtx := Option.none, perTaskSteps := 0, agentErrors := 0,
    taskStart := 0, askIdx := 0, doneIdx := 0, goalIdx := 0, optIdx := 0,
    toolIdx := 0, clockIdx := 0, logs := [], trace := [] }

/-- Embedding of `Agent.run` up to answer generation (agent.py lines 295-477): plan
(falling back to a single task built from the query when planning raises),
short-circuit on an empty plan, then the task loop. -/
def runAgentState (cfg : AgentConfig) (env : AgentEnv) (fuel : Nat)
    (query : String) : Option AgentState :=
  let tasks := match env.planOutcome with
    | .ok ts => ts
    | .error _ => [⟨1, query, false⟩]
  let st0 := initialState tasks
  if tasks.isEmpty then some st0 else outerLoop cfg env fuel st0

/-- Embedding of `Agent.run` (agent.py lines 295-481): the loop followed by
`_generate_answer` (lines 484-515), whose LLM call is NOT wrapped in a
try/except — its outcome, success or raised exception, is the result of
`run`.  `Option.none` is fuel exhaustion of the model, not a behaviour of
the code. -/
def Agent_run (cfg : AgentConfig) (env : AgentEnv) (fuel : Nat)
    (query : String) : Option (Except String String) :=
  (runAgentState cfg env fuel query).map (fun _ => env.answer)

/-- Number of dispatch events in a trace. -/
def countDispatch (tr : List AgentEvent) : Nat :=
  tr.countP (fun e => match e with
    | .evDispatch _ _ _ => true
    | _ => false)

/-- Number of dispatch events of one specific action in a trace. -/
def countDispatchOf (tr : List AgentEvent) (taskId : Int) (name args : String) :
    Nat :=
  tr.countP (fun e => match e with
    | .evDispatch t n a => t == taskId && n == name && a == args
    | _ => false)

/-- Number of retry-context creations in a trace. -/
def countRetryCreated (tr : List AgentEvent) : Nat :=
  tr.countP (fun e => match e with
    | .evRetryCreated _ _ _ => true
    | _ => false)

/-- Number of action-selection calls that received a retry context. -/
def countAskCtx (tr : List AgentEvent) : Nat :=
  tr.countP (fun e => match e with
    | .evAsk _ (some _) => true
    | _ => false)

/-- One when a retry context is pending in the state, else 0. -/
def pendingCtx (st : AgentState) : Nat :=
  if st.retryCtx.isSome then 1 else 0

/-- One-tool-call model message. -/
def msgOf (name args : String) : AgentMessage :=
  ⟨"", [⟨name, args⟩]⟩

/-- A test double whose every LLM oracle raises except the final answer
call. -/
def envAllFail : AgentEnv :=
  { planOutcome := .error "planner down",
    ask := fun _ => .error "llm down",
    taskDone := fun _ => .error "llm down",
    goalAchieved := fun _ => .error "llm down",
    optimize := fun _ => .error "llm down",
    registry := ["demographics"],
    toolRun := fun _ => .error "tool down",
    clock := fun _ => 0,
    answer := .ok "The analysis",
    formatOutput := fun n _ _ => n,
    manageContext := fun _ => "" }

/-- A test double where only the final answer call raises. -/
def envAnswerFails : AgentEnv :=
  { planOutcome := .ok [],
    ask := fun _ => .ok ⟨"", []⟩,
    taskDone := fun _ => .ok true,
    goalAchieved := fun _ => .ok true,
    optimize := fun _ => .ok "",
    registry := [],
    toolRun := fun _ => .ok PyVal.none,
    clock := fun _ => 0,
    answer := .error "connection refused",
    formatOutput := fun n _ _ => n,
    manageContext := fun _ => "" }

/-- Configuration of the loop-detection scenario: a roomy per-task budget
and a capability that skips argument optimization. -/
def cfgLoop : AgentConfig :=
  { maxStepsPerTask := 10, skipArgOptimization := true }

/-- A test double that selects the action `A:x` three times, a fourth time
(tripping the detector), then `B:y`, then `A:x` once more; the task
validator approves at the sixth probe. -/
def envLoop : AgentEnv :=
  { planOutcome := .ok [⟨1, "t", false⟩],
    ask := fun k => .ok (([msgOf "A" "x", msgOf "A" "x", msgOf "A" "x",
      msgOf "A" "x", msgOf "B" "y", msgOf "A" "x"]).getD k ⟨"", []⟩),
    taskDone := fun k => .ok (k == 5),
    goalAchieved := fun _ => .ok true,
    optimize := fun _ => .ok "",
    registry := ["A", "B"],
    toolRun := fun _ => .ok (PyVal.str "fine"),
    clock := fun _ => 0,
    answer := .ok "done",
    formatOutput := fun n _ _ => n,
    manageContext := fun _ => "" }

/-- A session state in which the action `A:x` has already been chosen
three times in a row. -/
def stLoopW : AgentState :=
  { initialState [⟨1, "t", false⟩] with
    lastActions := ["A:x", "A:x", "A:x"] }

/-- A test double that asks for the unregistered tool `foo` once; the task
validator then approves. -/
def envUnknownTool : AgentEnv :=
  { planOutcome := .ok [⟨1, "t", false⟩],
    ask := fun k => .ok (if k == 0 then msgOf "foo" "x" else ⟨"", []⟩),
    taskDone := fun _ => .ok true,
    goalAchieved := fun _ => .ok true,
    optimize := fun _ => .ok "",
    registry := ["bar"],
    toolRun := fun _ => .ok (PyVal.str "fine"),
    clock := fun _ => 0,
    answer := .ok "done",
    formatOutput := fun n _ _ => n,
    manageContext := fun _ => "" }

/-- Configuration of the retry scenario: one counted step per task
activation, the default retry budget of two. -/
def cfgRetry : AgentConfig :=
  { maxStepsPerTask := 1, skipArgOptimization := true }

/-- A test double whose tool always reports an empty result
(`{"patients": []}`) and whose action selection keeps proposing tool `A`
with fresh arguments (defeating loop detection); the seventh proposal has
no tool calls, completing the task. -/
def envRetry : AgentEnv :=
  { planOutcome := .ok [⟨1, "t", false⟩],
    ask := fun k => .ok (([msgOf "A" "a", msgOf "A" "b", msgOf "A" "c",
      msgOf "A" "d", msgOf "A" "e", msgOf "A" "f"]).getD k ⟨"", []⟩),
    taskDone := fun _ => .ok false,
    goalAchieved := fun _ => .ok true,
    optimize := fun _ => .ok "",
    registry := ["A"],
    toolRun := fun _ => .ok (PyVal.dict [("patients", PyVal.list [])]),
    clock := fun _ => 0,
    answer := .ok "done",
    formatOutput := fun n _ _ => n,
    manageContext := fun _ => "" }

/-- Lookup in a stats dict (`List (String × ℚ)`). -/
def dictGetQ (kvs : List (String × ℚ)) (k : String) : Option ℚ :=
  (kvs.find? (fun p => p.1 == k)).map (fun p => p.2)

section Theorems

/-- Length of a `filterMap` counts the elements the function keeps. -/
theorem length_filterMap_eq_countP {α β : Type} (f : α → Option β) (l : List α) :
    (l.filterMap f).length = l.countP (fun a => (f a).isSome) := by
  induction l with
  | nil => rfl
  | cons a t ih =>
    by_cases h : (f a).isSome
    · obtain ⟨b, hb⟩ := Option.isSome_iff_exists.mp h
      simp [List.filterMap_cons, hb, List.countP_cons, ih, h]
    · simp only [Option.not_isSome_iff_eq_none] at h
      simp [List.filterMap_cons, h, List.countP_cons, ih]

/-- Characterization: `dictKeyFalsy` holds exactly when the key is bound to a falsy value. -/
theorem dictKeyFalsy_iff (kvs : List (String × PyVal)) (k : String) :
    dictKeyFalsy kvs k = true ↔
      ∃ v, dictGet kvs k = some v ∧ pyTruthy v = false := by
  cases h : dictGet kvs k <;> simp [dictKeyFalsy, h]

/-- Characterization: `dictCondEmpty` holds exactly when `conditions` is an empty list or
empty dict. -/
theorem dictCondEmpty_iff (kvs : List (String × PyVal)) :
    dictCondEmpty kvs = true ↔
      dictGet kvs "conditions" = some (.list []) ∨
      dictGet kvs "conditions" = some (.dict []) := by
  rcases h : dictGet kvs "conditions" with _ | v
  · simp [dictCondEmpty, h]
  · cases v <;> simp [dictCondEmpty, h, List.isEmpty_iff]

/-- Characterization: `dictKeyZero` holds exactly when the key is bound to a value comparing
equal to 0 (the default 1 never does). -/
theorem dictKeyZero_iff (kvs : List (String × PyVal)) (k : String) :
    dictKeyZero kvs k = true ↔
      ∃ v, dictGet kvs k = some v ∧ pyEqZero v = true := by
  cases h : dictGet kvs k
  · simp only [dictKeyZero, h, Option.getD_none]
    constructor
    · intro hz; exact absurd hz (by decide)
    · rintro ⟨v, hv, -⟩; exact absurd hv (by simp)
  · simp [dictKeyZero, h]

/-- C3 (counterexample). The string "no records" is classified as empty by
the source's `is_empty_or_no_data_result` although it contains none of the
eight phrases the claim lists, so the claim's "exactly" is false: the
source checks ten phrases, not eight. -/
theorem C3_counterexample :
    is_empty_or_no_data_result (.str "no records") = true ∧
    isEmptySpecC3 (.str "no records") = false := by
  constructor <;> decide

/-- C3 (amended): `is_empty_or_no_data_result` is total (it is a Lean
function into `Bool`) and returns `true` exactly for: `None`; a string
whose lowercasing contains one of the TEN phrases "no data", "no results",
"not found", "empty", "no patients", "no records", "0 patients",
"0 results", "could not find", "unable to find"; a mapping whose
`patients` or `results` value is falsy, or whose `conditions` value is an
empty list or empty dict, or whose `total_patients` or `count` value
compares equal to 0; or an empty list — and `false` for every other
value. -/
theorem C3_empty_classifier_amended (x : PyVal) :
    is_empty_or_no_data_result x = true ↔
      (x = .none ∨
       (∃ s, x = .str s ∧
          ∃ ind ∈ no_data_indicators, strContains (strLower s) ind = true) ∨
       (∃ kvs, x = .dict kvs ∧
         ((∃ v, dictGet kvs "patients" = some v ∧ pyTruthy v = false) ∨
          (∃ v, dictGet kvs "results" = some v ∧ pyTruthy v = false) ∨
          dictGet kvs "conditions" = some (.list []) ∨
          dictGet kvs "conditions" = some (.dict []) ∨
          (∃ v, dictGet kvs "total_patients" = some v ∧ pyEqZero v = true) ∨
          (∃ v, dictGet kvs "count" = some v ∧ pyEqZero v = true))) ∨
       (∃ xs, x = .list xs ∧ xs = [])) := by
  cases x with
  | none => simp [is_empty_or_no_data_result]
  | bool b => simp [is_empty_or_no_data_result]
  | num q => simp [is_empty_or_no_data_result]
  | str s => simp [is_empty_or_no_data_result, List.any_eq_true]
  | list xs => simp [is_empty_or_no_data_result, List.isEmpty_iff]
  | dict kvs =>
    simp [is_empty_or_no_data_result, dictKeyFalsy_iff, dictCondEmpty_iff,
      dictKeyZero_iff, or_assoc]

/-- C9: capability lookup is total and defaulting — for every model name
absent from the registry, `get_model_capability` returns the conservative
`DEFAULT_CAPABILITY`: no native tools, prompt-JSON strategy, tool examples
on, and a tool-call reliability (0.5) strictly below every registered
model's. -/
theorem C9_capability_default (m : String)
    (h : m ∉ MODEL_REGISTRY.map Prod.fst) :
    get_model_capability m = DEFAULT_CAPABILITY ∧
    DEFAULT_CAPABILITY.nativeTools = false ∧
    DEFAULT_CAPABILITY.toolStrategy = .promptJson ∧
    DEFAULT_CAPABILITY.needsToolExamples = true ∧
    ∀ p ∈ MODEL_REGISTRY,
      DEFAULT_CAPABILITY.toolCallReliabilityPct < p.2.toolCallReliabilityPct := by
  refine ⟨?_, rfl, rfl, rfl, by decide⟩
  have hf : MODEL_REGISTRY.find? (fun p => p.1 == m) = Option.none := by
    apply List.find?_eq_none.mpr
    intro p hp
    simp only [beq_iff_eq]
    intro hEq
    exact h (hEq ▸ List.mem_map_of_mem Prod.fst hp)
  simp [get_model_capability, hf]

/-- Witness for C9 at the concrete unknown name "mystery-model". -/
theorem C9_capability_default_witness :
    get_model_capability "mystery-model" = DEFAULT_CAPABILITY :=
  (C9_capability_default "mystery-model" (by decide)).1

/-- C10: `aggregate_numeric` is total and never divides by zero — for any
items and field it returns a mapping with exactly the keys
`count, min, max, mean, sum`; `count` is the number of items whose field
value parses as a float; and when no value parses it returns the all-zero
stats record instead of raising. -/
theorem C10_aggregate_numeric_total
    (items : List (List (String × PyVal))) (field : String) :
    (aggregate_numeric items field).map Prod.fst =
      ["count", "min", "max", "mean", "sum"] ∧
    dictGetQ (aggregate_numeric items field) "count" =
      some ((items.countP (fun it => (fieldFloat? field it).isSome) : ℕ) : ℚ) ∧
    (items.countP (fun it => (fieldFloat? field it).isSome) = 0 →
      aggregate_numeric items field =
        [("count", 0), ("min", 0), ("max", 0), ("mean", 0), ("sum", 0)]) := by
  have hlen := length_filterMap_eq_countP (fieldFloat? field) items
  by_cases hv : (items.filterMap (fieldFloat? field)).isEmpty
  · have hnil : items.filterMap (fieldFloat? field) = [] :=
      List.isEmpty_iff.mp hv
    have hcount : items.countP (fun it => (fieldFloat? field it).isSome) = 0 := by
      rw [← hlen, hnil]; rfl
    refine ⟨?_, ?_, fun _ => ?_⟩ <;>
      simp [aggregate_numeric, hnil, hcount, dictGetQ]
  · have hcons : items.filterMap (fieldFloat? field) ≠ [] := by
      intro hEq; exact hv (by simp [hEq])
    have hcount : items.countP (fun it => (fieldFloat? field it).isSome) ≠ 0 := by
      rw [← hlen]
      simpa [List.length_eq_zero] using hcons
    refine ⟨?_, ?_, fun hc => absurd hc hcount⟩ <;>
      simp [aggregate_numeric, List.isEmpty_iff, hcons, dictGetQ, hlen]

/-- Witness for C10 at the empty item list (no value parses). -/
theorem C10_aggregate_numeric_total_witness :
    aggregate_numeric [] "value" =
      [("count", 0), ("min", 0), ("max", 0), ("mean", 0), ("sum", 0)] :=
  (C10_aggregate_numeric_total [] "value").2.2 rfl

/-- C7: `generate_and_run_analysis` returns a status mapping for every
execution outcome — it never raises.  A syntax error, a top-level execution
error, a missing `analyze` function, and a runtime exception inside
`analyze()` each yield `status = "error"` with the corresponding error
description; a successful run yields `status = "success"` with the result
of `analyze()`. -/
theorem C7_sandbox_structured (desc : String) (limit : Nat)
    (outcome : ExecOutcome) :
    (dictGet (generate_and_run_analysis desc limit outcome) "status" =
        some (.str "error") ∨
     dictGet (generate_and_run_analysis desc limit outcome) "status" =
        some (.str "success")) ∧
    (∀ msg line, outcome = .synErr msg line →
      dictGet (generate_and_run_analysis desc limit outcome) "error" =
        some (.str ("Syntax error in generated code: " ++ msg))) ∧
    (∀ msg tb, outcome = .topErr msg tb →
      dictGet (generate_and_run_analysis desc limit outcome) "error" =
        some (.str ("Execution error: " ++ msg)) ∧
      dictGet (generate_and_run_analysis desc limit outcome) "traceback" =
        some (.str tb)) ∧
    (∀ run, outcome = .done false run →
      dictGet (generate_and_run_analysis desc limit outcome) "error" =
        some (.str "Code must define a function called 'analyze()'")) ∧
    (∀ msg tb, outcome = .done true (.exn msg tb) →
      dictGet (generate_and_run_analysis desc limit outcome) "error" =
        some (.str ("Execution error: " ++ msg)) ∧
      dictGet (generate_and_run_analysis desc limit outcome) "traceback" =
        some (.str tb)) ∧
    (∀ r, outcome = .done true (.ok r) →
      dictGet (generate_and_run_analysis desc limit outcome) "status" =
        some (.str "success") ∧
      dictGet (generate_and_run_analysis desc limit outcome) "result" =
        some r) := by
  refine ⟨?_, ?_, ?_, ?_, ?_, ?_⟩
  · rcases outcome with _ | _ | ⟨b, run⟩
    · exact Or.inl rfl
    · exact Or.inl rfl
    · rcases b with _ | _
      · exact Or.inl rfl
      · rcases run with _ | _
        · exact Or.inr rfl
        · exact Or.inl rfl
  · rintro msg line rfl; rfl
  · rintro msg tb rfl; exact ⟨rfl, rfl⟩
  · rintro run rfl; rfl
  · rintro msg tb rfl; exact ⟨rfl, rfl⟩
  · rintro r rfl; exact ⟨rfl, rfl⟩

/-- Witness for C7 at a concrete syntax-error outcome. -/
theorem C7_sandbox_structured_witness :
    dictGet
      (generate_and_run_analysis "demo" 5 (.synErr "invalid syntax" 3))
      "error" =
      some (.str "Syntax error in generated code: invalid syntax") :=
  (C7_sandbox_structured "demo" 5 (.synErr "invalid syntax" 3)).2.1
    "invalid syntax" 3 rfl

/-- The concrete loader for the C8 counterexample: one patient with one
laboratory glucose observation of value 5. -/
def c8load : String → Option (List Observation) := fun pid =>
  if pid = "p1" then some [⟨"Glucose", .num 5, ["laboratory"]⟩]
  else Option.none

/-- C8 (counterexample). On a concrete batch, the per-code numeric stats
dict has exactly the keys `count, min, max, mean` — there is no `sum` key,
contradicting the claimed key set
`{count, min, max, mean, sum}` (api.py lines 283-289 build only four
entries). -/
theorem C8_counterexample :
    (batch_extract_observations ["p1"] c8load Option.none
        Option.none).numeric_stats.map (fun p => (p.1, p.2.map Prod.fst)) =
      [("Glucose", ["count", "min", "max", "mean"])] ∧
    "sum" ∉ (["count", "min", "max", "mean"] : List String) :=
  ⟨rfl, by decide⟩

/-- C8 (amended): for every list of patient ids, every per-code stats dict
returned by `batch_extract_observations` has exactly the keys
`count, min, max, mean` (no `sum`), computed as length, minimum, maximum
and average of the nonempty list of numeric observation values collected
for that code. -/
theorem C8_numeric_stats_amended (ids : List String)
    (load : String → Option (List Observation))
    (category codeFilter : Option String) (c : String)
    (st : List (String × ℚ))
    (h : (c, st) ∈
      (batch_extract_observations ids load category codeFilter).numeric_stats) :
    st.map Prod.fst = ["count", "min", "max", "mean"] ∧
    ∃ vs : List ℚ,
      (c, vs) ∈ (batchObsAccum ids load category codeFilter).numeric_values ∧
      vs ≠ [] ∧
      st = [("count", (vs.length : ℚ)), ("min", listMin vs),
            ("max", listMax vs), ("mean", listSum vs / (vs.length : ℚ))] := by
  have h' : (c, st) ∈
      (batchObsAccum ids load category codeFilter).numeric_values.filterMap
        (fun p =>
          if p.2.isEmpty then Option.none else some (p.1, obsStats p.2)) := h
  obtain ⟨⟨c', vs⟩, hmem, heq⟩ := List.mem_filterMap.mp h'
  by_cases hv : vs.isEmpty
  · simp [hv] at heq
  · simp only [hv, if_false] at heq
    obtain ⟨rfl, rfl⟩ : c' = c ∧ obsStats vs = st := by
      constructor <;> [exact congrArg Prod.fst (Option.some.inj heq);
        exact congrArg Prod.snd (Option.some.inj heq)]
    refine ⟨rfl, vs, hmem, ?_, rfl⟩
    simpa [List.isEmpty_iff] using hv

/-- Witness for C8 (amended) at the concrete glucose batch. -/
theorem C8_numeric_stats_amended_witness :
    ("Glucose", obsStats [(5 : ℚ)]) ∈
      (batch_extract_observations ["p1"] c8load Option.none
        Option.none).numeric_stats ∧
    (obsStats [(5 : ℚ)]).map Prod.fst = ["count", "min", "max", "mean"] := by
  have hmem : ("Glucose", obsStats [(5 : ℚ)]) ∈
      (batch_extract_observations ["p1"] c8load Option.none
        Option.none).numeric_stats := List.Mem.head _
  exact ⟨hmem,
    (C8_numeric_stats_amended ["p1"] c8load Option.none Option.none
      "Glucose" (obsStats [(5 : ℚ)]) hmem).1⟩

theorem digitChar_isDigit {d : Nat} (hd : d < 10) :
    (digitChar d).isDigit = true := by
  interval_cases d <;> decide

theorem digitChar_toNat {d : Nat} (hd : d < 10) :
    (digitChar d).toNat - 48 = d := by
  interval_cases d <;> decide

theorem digitChar_not_ws {d : Nat} (hd : d < 10) :
    wsChar (digitChar d) = false := by
  interval_cases d <;> decide

theorem natDigitsAux_congr :
    ∀ n f g, n < f → n < g → natDigitsAux f n = natDigitsAux g n := by
  intro n
  induction n using Nat.strong_induction_on with
  | _ n ih =>
    intro f g hf hg
    match f, g with
    | f' + 1, g' + 1 =>
      by_cases h10 : n < 10
      · simp [natDigitsAux, h10]
      · have hdiv : n / 10 < n := by omega
        simp only [natDigitsAux, h10, if_false]
        rw [ih (n / 10) hdiv f' g' (by omega) (by omega)]

theorem natDigits_split (n : Nat) (h10 : ¬ n < 10) :
    natDigits n = natDigits (n / 10) ++ [digitChar (n % 10)] := by
  show natDigitsAux (n + 1) n = natDigitsAux (n / 10 + 1) (n / 10) ++ _
  have h1 : natDigitsAux (n + 1) n =
      natDigitsAux n (n / 10) ++ [digitChar (n % 10)] := by
    simp [natDigitsAux, h10]
  rw [h1, natDigitsAux_congr (n / 10) n (n / 10 + 1) (by omega) (by omega)]

theorem natDigits_base (n : Nat) (h10 : n < 10) :
    natDigits n = [digitChar n] := by
  simp [natDigits, natDigitsAux, h10]

theorem natDigits_shape (n : Nat) :
    ∃ d t, d < 10 ∧ natDigits n = digitChar d :: t := by
  induction n using Nat.strong_induction_on with
  | _ n ih =>
    by_cases h10 : n < 10
    · exact ⟨n, [], h10, natDigits_base n h10⟩
    · have hdiv : n / 10 < n := by omega
      obtain ⟨d, t, hd, ht⟩ := ih (n / 10) hdiv
      exact ⟨d, t ++ [digitChar (n % 10)], hd, by
        rw [natDigits_split n h10, ht]; simp⟩

theorem parseNatAux_digits :
    ∀ n acc rest, parseNatAux acc (natDigits n ++ rest) =
      parseNatAux (acc * 10 ^ (natDigits n).length + n) rest := by
  intro n
  induction n using Nat.strong_induction_on with
  | _ n ih =>
    intro acc rest
    by_cases h10 : n < 10
    · rw [natDigits_base n h10]
      simp only [List.cons_append, List.nil_append, parseNatAux,
        digitChar_isDigit h10, if_true, digitChar_toNat h10,
        List.length_cons, List.length_nil, Nat.zero_add, pow_one]
      rfl
    · have hdiv : n / 10 < n := by omega
      have hm10 : n % 10 < 10 := Nat.mod_lt _ (by omega)
      rw [natDigits_split n h10, List.append_assoc, List.singleton_append,
        ih (n / 10) hdiv acc (digitChar (n % 10) :: rest)]
      simp only [parseNatAux, digitChar_isDigit hm10, if_true,
        digitChar_toNat hm10, List.length_append, List.length_cons,
        List.length_nil, Nat.zero_add]
      congr 1
      have hdm : 10 * (n / 10) + n % 10 = n := Nat.div_add_mod n 10
      rw [pow_add, pow_one]
      ring_nf
      omega

theorem parseNatAux_stop {rest : List Char} (acc : Nat)
    (h : headDigit rest = false) : parseNatAux acc rest = (acc, rest) := by
  cases rest with
  | nil => rfl
  | cons c t =>
    simp only [headDigit] at h
    simp [parseNatAux, h]

theorem parseNat1_eq (n : Nat) {rest : List Char}
    (h : headDigit rest = false) :
    parseNat1 (natDigits n ++ rest) = some (n, rest) := by
  obtain ⟨d, t, hd, ht⟩ := natDigits_shape n
  have key : parseNatAux 0 (natDigits n ++ rest) = (n, rest) := by
    rw [parseNatAux_digits n 0 rest, zero_mul, zero_add, parseNatAux_stop n h]
  rw [ht] at key ⊢
  simp only [List.cons_append, parseNatAux, digitChar_isDigit hd, if_true,
    digitChar_toNat hd, zero_mul, zero_add] at key
  simp only [List.cons_append, parseNat1, digitChar_isDigit hd, if_true,
    digitChar_toNat hd]
  exact congrArg some key

theorem parseStrAux_close (acc rest : List Char) :
    parseStrAux acc ('"' :: rest) = some (String.mk acc.reverse, rest) := by
  cases rest <;> simp [parseStrAux]

theorem parseStrAux_esc (acc rest : List Char) {e u : Char}
    (hu : unescape e = some u) :
    parseStrAux acc ('\\' :: e :: rest) = parseStrAux (u :: acc) rest := by
  have h : parseStrAux acc ('\\' :: e :: rest) =
      (match unescape e with
       | some u => parseStrAux (u :: acc) rest
       | Option.none => Option.none) := rfl
  rw [h, hu]

theorem parseStrAux_lit (acc rest : List Char) {c : Char} (h1 : c ≠ '"')
    (h2 : c ≠ '\\') :
    parseStrAux acc (c :: rest) = parseStrAux (c :: acc) rest := by
  cases rest <;> (simp only [parseStrAux]; rw [if_neg h1, if_neg h2])

/-- Every character either serializes to itself (and is not a quote or
backslash) or to a two-character escape that un-escapes back to it. -/
theorem escChar_spec (c : Char) :
    (escChar c = [c] ∧ c ≠ '"' ∧ c ≠ '\\') ∨
    (∃ e, escChar c = ['\\', e] ∧ unescape e = some c) := by
  by_cases h1 : c = '"'
  · exact Or.inr ⟨'"', by simp [escChar, h1], by subst h1; rfl⟩
  · by_cases h2 : c = '\\'
    · exact Or.inr ⟨'\\', by simp [escChar, h1, h2], by subst h2; rfl⟩
    · by_cases h3 : c = '\n'
      · exact Or.inr ⟨'n', by simp [escChar, h1, h2, h3], by subst h3; rfl⟩
      · by_cases h4 : c = '\t'
        · exact Or.inr ⟨'t', by simp [escChar, h1, h2, h3, h4], by
            subst h4; rfl⟩
        · by_cases h5 : c = '\r'
          · exact Or.inr ⟨'r', by simp [escChar, h1, h2, h3, h4, h5], by
              subst h5; rfl⟩
          · exact Or.inl ⟨by simp [escChar, h1, h2, h3, h4, h5], h1, h2⟩

theorem parseStrAux_escape :
    ∀ (l : List Char) (acc rest),
      parseStrAux acc ((l.map escChar).flatten ++ '"' :: rest) =
        some (String.mk (acc.reverse ++ l), rest) := by
  intro l
  induction l with
  | nil =>
    intro acc rest
    simp only [List.map_nil, List.flatten_nil, List.nil_append,
      parseStrAux_close, List.append_nil]
  | cons c t ih =>
    intro acc rest
    rcases escChar_spec c with ⟨hlit, h1, h2⟩ | ⟨e, hesc, hu⟩
    · simp only [List.map_cons, List.flatten_cons, hlit,
        List.singleton_append, List.cons_append, List.append_assoc]
      rw [List.nil_append, parseStrAux_lit acc _ h1 h2, ih (c :: acc) rest]
      simp
    · simp only [List.map_cons, List.flatten_cons, hesc, List.cons_append,
        List.nil_append, List.append_assoc]
      rw [parseStrAux_esc acc _ hu, ih (c :: acc) rest]
      simp

theorem skipWs_of_headNotWs {cs : List Char} (h : headNotWs cs = true) :
    skipWs cs = cs := by
  cases cs with
  | nil => rfl
  | cons c t =>
    simp only [headNotWs, Bool.not_eq_true'] at h
    simp [skipWs, List.dropWhile_cons, h]

theorem skipWs_cons_ws {c : Char} (h : wsChar c = true) (cs : List Char) :
    skipWs (c :: cs) = skipWs cs := by
  simp [skipWs, List.dropWhile_cons, h]

theorem dropWhile_ws_not {cs : List Char} (h : headNotWs cs = true) :
    List.dropWhile wsChar cs = cs := skipWs_of_headNotWs h

theorem headNotWs_append {cs r : List Char} (h : headNotWs cs = true) :
    headNotWs (cs ++ r) = true := by
  cases cs with
  | nil => simp [headNotWs] at h
  | cons c t => simpa [headNotWs] using h

theorem jsize_pos (v : JVal) : 1 ≤ jsize v := by
  cases v <;> simp [jsize] <;> omega

theorem sizeL_pos (xs : List JVal) : 1 ≤ sizeL xs := by
  cases xs <;> simp [sizeL] <;> omega

theorem sizeO_pos (ms : List (String × JVal)) : 1 ≤ sizeO ms := by
  cases ms <;> simp [sizeO] <;> omega

/-- Head character of every serialization: nonempty, not whitespace, and
none of the structural delimiters a parser branch keys on. -/
theorem serVal_head (v : JVal) :
    ∃ c t, serVal v = c :: t ∧ wsChar c = false ∧ c ≠ ']' ∧ c ≠ '}' ∧
      c ≠ ',' := by
  cases v with
  | jnull => exact ⟨'n', _, rfl, by decide, by decide, by decide, by decide⟩
  | jbool b =>
    cases b with
    | true => exact ⟨'t', _, rfl, by decide, by decide, by decide, by decide⟩
    | false => exact ⟨'f', _, rfl, by decide, by decide, by decide, by decide⟩
  | jnum n =>
    by_cases hn : n < 0
    · refine ⟨'-', natDigits n.natAbs, ?_, by decide, by decide, by decide,
        by decide⟩
      simp [serVal, serInt, hn]
    · obtain ⟨d, t, hd, ht⟩ := natDigits_shape n.natAbs
      refine ⟨digitChar d, t, ?_, digitChar_not_ws hd, ?_, ?_, ?_⟩
      · simp [serVal, serInt, hn, ht]
      all_goals interval_cases d <;> decide
  | jstr s => exact ⟨'"', _, rfl, by decide, by decide, by decide, by decide⟩
  | jarr xs =>
    cases xs with
    | nil => exact ⟨'[', _, rfl, by decide, by decide, by decide, by decide⟩
    | cons x t =>
      exact ⟨'[', _, rfl, by decide, by decide, by decide, by decide⟩
  | jobj ms =>
    cases ms with
    | nil => exact ⟨'{', _, rfl, by decide, by decide, by decide, by decide⟩
    | cons m t =>
      exact ⟨'{', _, rfl, by decide, by decide, by decide, by decide⟩

theorem serVal_headNotWs (v : JVal) : headNotWs (serVal v) = true := by
  obtain ⟨c, t, hct, hws, -, -, -⟩ := serVal_head v
  rw [hct]
  simp [headNotWs, hws]

/-- After an element, the serialized array tail starts with `,` or `]`;
in particular not with a digit and not with whitespace. -/
theorem serArrRest_head (xs : List JVal) (r : List Char) :
    headDigit (serArrRest xs ++ r) = false ∧
    headNotWs (serArrRest xs ++ r) = true := by
  cases xs <;> simp [serArrRest, headDigit, headNotWs, wsChar]

/-- After a member value, the serialized object tail starts with `,` or
`}`. -/
theorem serObjRest_head (ms : List (String × JVal)) (r : List Char) :
    headDigit (serObjRest ms ++ r) = false ∧
    headNotWs (serObjRest ms ++ r) = true := by
  cases ms <;> simp [serObjRest, headDigit, headNotWs, wsChar]

theorem numOk_nil (v : JVal) : numOk v [] = true := by
  cases v <;> simp [numOk, headDigit]

theorem numOk_arrRest (v : JVal) (xs : List JVal) (r : List Char) :
    numOk v (serArrRest xs ++ r) = true := by
  cases v <;> simp [numOk, (serArrRest_head xs r).1]

theorem numOk_objRest (v : JVal) (ms : List (String × JVal)) (r : List Char) :
    numOk v (serObjRest ms ++ r) = true := by
  cases v <;> simp [numOk, (serObjRest_head ms r).1]

mutual
theorem jsize_le_serVal (v : JVal) : jsize v ≤ 2 * (serVal v).length + 2 := by
  cases v with
  | jnull => simp [jsize, serVal]
  | jbool b => cases b <;> simp [jsize, serVal]
  | jnum n => simp only [jsize]; omega
  | jstr s => simp [jsize, serStr, serVal]
  | jarr xs =>
    cases xs with
    | nil => simp [jsize, sizeL, serVal]
    | cons x t =>
      have h1 := jsize_le_serVal x
      have h2 := sizeL_le_serArrRest t
      simp only [jsize, sizeL, serVal, List.length_cons, List.length_append]
      omega
  | jobj ms =>
    cases ms with
    | nil => simp [jsize, sizeO, serVal]
    | cons m t =>
      have h1 := jsize_le_serVal m.2
      have h2 := sizeO_le_serObjRest t
      simp only [jsize, sizeO, serVal, List.length_cons, List.length_append]
      omega
theorem sizeL_le_serArrRest (xs : List JVal) :
    sizeL xs ≤ 2 * (serArrRest xs).length := by
  cases xs with
  | nil => simp [sizeL, serArrRest]
  | cons y t =>
    have h1 := jsize_le_serVal y
    have h2 := sizeL_le_serArrRest t
    simp only [sizeL, serArrRest, List.length_cons, List.length_append]
    omega
theorem sizeO_le_serObjRest (ms : List (String × JVal)) :
    sizeO ms ≤ 2 * (serObjRest ms).length := by
  cases ms with
  | nil => simp [sizeO, serObjRest]
  | cons m t =>
    have h1 := jsize_le_serVal m.2
    have h2 := sizeO_le_serObjRest t
    simp only [sizeO, serObjRest, List.length_cons, List.length_append]
    omega
end

mutual
theorem parseVal_ser (f : Nat) (v : JVal) (rest : List Char)
    (hf : jsize v ≤ f) (hnum : numOk v rest = true) :
    parseVal f (serVal v ++ rest) = some (v, rest) := by
  cases f with
  | zero => exact absurd hf (by have := jsize_pos v; omega)
  | succ f =>
    cases v with
    | jnull => simp [serVal, parseVal, skipWs, wsChar]
    | jbool b => cases b <;> simp [serVal, parseVal, skipWs, wsChar]
    | jnum n =>
      have hrest : headDigit rest = false := by simpa [numOk] using hnum
      by_cases hn : n < 0
      · have hs : serVal (.jnum n) ++ rest = '-' :: (natDigits n.natAbs ++ rest) := by
          simp [serVal, serInt, hn]
        rw [hs]
        simp only [parseVal, skipWs, List.dropWhile,
          show wsChar '-' = false from rfl,
          show ('-' : Char).isDigit = false from rfl,
          Bool.false_eq_true, if_false]
        rw [parseNat1_eq _ hrest]
        have hcast : -((n.natAbs : Int)) = n := by omega
        simp only [Option.map_some']
        rw [hcast]
      · obtain ⟨d, t, hd, ht⟩ := natDigits_shape n.natAbs
        have hs : serVal (.jnum n) ++ rest = digitChar d :: (t ++ rest) := by
          simp [serVal, serInt, hn, ht]
        rw [hs]
        simp only [parseVal, skipWs, List.dropWhile, digitChar_not_ws hd,
          Bool.false_eq_true, if_false, digitChar_isDigit hd, if_true]
        rw [show digitChar d :: (t ++ rest) = natDigits n.natAbs ++ rest from
          by rw [ht]; simp]
        rw [parseNat1_eq _ hrest]
        have hcast : ((n.natAbs : Int)) = n := by omega
        simp only [Option.map_some']
        rw [hcast]
    | jstr s =>
      have hs : serVal (.jstr s) ++ rest =
          '"' :: ((s.data.map escChar).flatten ++ ('"' :: rest)) := by
        simp [serVal, serStr]
      rw [hs]
      simp only [parseVal, skipWs, List.dropWhile,
        show wsChar '"' = false from rfl,
        show ('"' : Char).isDigit = false from rfl,
        Bool.false_eq_true, if_false]
      rw [parseStrAux_escape s.data [] rest]
      simp
    | jarr xs =>
      cases xs with
      | nil =>
        have hf1 : 1 ≤ f := by simp [jsize, sizeL] at hf; omega
        obtain ⟨g, rfl⟩ : ∃ g, f = g + 1 := ⟨f - 1, by omega⟩
        simp [serVal, parseVal, parseArrItems, skipWs, wsChar]
      | cons x xs =>
        have hs : serVal (.jarr (x :: xs)) ++ rest =
            '[' :: ((serVal x ++ serArrRest xs) ++ rest) := by
          simp [serVal]
        rw [hs]
        simp only [parseVal]
        rw [show skipWs ('[' :: ((serVal x ++ serArrRest xs) ++ rest)) =
            '[' :: ((serVal x ++ serArrRest xs) ++ rest) from
          skipWs_of_headNotWs (by simp [headNotWs, wsChar])]
        simp only [show ('[' : Char).isDigit = false from rfl,
          Bool.false_eq_true, if_false]
        rw [show skipWs ((serVal x ++ serArrRest xs) ++ rest) =
            (serVal x ++ serArrRest xs) ++ rest from by
          rw [List.append_assoc]
          exact skipWs_of_headNotWs (headNotWs_append (serVal_headNotWs x))]
        rw [parseArr_ser f x xs rest (by simp [jsize] at hf; omega)]
        rfl
    | jobj ms =>
      cases ms with
      | nil =>
        have hf1 : 1 ≤ f := by simp [jsize, sizeO] at hf; omega
        obtain ⟨g, rfl⟩ : ∃ g, f = g + 1 := ⟨f - 1, by omega⟩
        simp [serVal, parseVal, parseObjItems, skipWs, wsChar]
      | cons m ms =>
        have hs : serVal (.jobj (m :: ms)) ++ rest =
            '{' :: ((serStr m.1 ++ ':' :: ' ' :: (serVal m.2 ++ serObjRest ms))
              ++ rest) := by
          simp [serVal]
        rw [hs]
        simp only [parseVal]
        rw [show skipWs ('{' :: ((serStr m.1 ++ ':' :: ' ' ::
            (serVal m.2 ++ serObjRest ms)) ++ rest)) =
            '{' :: ((serStr m.1 ++ ':' :: ' ' ::
              (serVal m.2 ++ serObjRest ms)) ++ rest) from
          skipWs_of_headNotWs (by simp [headNotWs, wsChar])]
        simp only [show ('{' : Char).isDigit = false from rfl,
          Bool.false_eq_true, if_false]
        rw [show skipWs ((serStr m.1 ++ ':' :: ' ' ::
            (serVal m.2 ++ serObjRest ms)) ++ rest) =
            (serStr m.1 ++ ':' :: ' ' :: (serVal m.2 ++ serObjRest ms))
              ++ rest from
          skipWs_of_headNotWs (headNotWs_append (by
            simp [serStr, headNotWs, wsChar]))]
        rw [parseObj_ser f m ms rest (by simp [jsize] at hf; omega)]
        rfl
termination_by f
theorem parseArr_ser (f : Nat) (x : JVal) (xs : List JVal) (rest : List Char)
    (hf : sizeL (x :: xs) ≤ f) :
    parseArrItems f ((serVal x ++ serArrRest xs) ++ rest) =
      some (x :: xs, rest) := by
  cases f with
  | zero =>
    simp [sizeL] at hf
  | succ f =>
    obtain ⟨c, t, hct, hws, hbr, -, -⟩ := serVal_head x
    have hx : (serVal x ++ serArrRest xs) ++ rest =
        c :: ((t ++ serArrRest xs) ++ rest) := by rw [hct]; simp
    rw [hx]
    simp only [parseArrItems]
    rw [if_neg hbr]
    rw [show c :: ((t ++ serArrRest xs) ++ rest) =
        serVal x ++ (serArrRest xs ++ rest) from by rw [hct]; simp]
    rw [parseVal_ser f x (serArrRest xs ++ rest)
      (by have := sizeL_pos xs; simp [sizeL] at hf; omega)
      (numOk_arrRest x xs rest)]
    cases xs with
    | nil => simp [serArrRest, skipWs, wsChar]
    | cons y ys =>
      have hsa : serArrRest (y :: ys) ++ rest =
          ',' :: ' ' :: ((serVal y ++ serArrRest ys) ++ rest) := by
        simp [serArrRest]
      rw [hsa]
      simp only [show skipWs (',' :: ' ' :: ((serVal y ++ serArrRest ys)
          ++ rest)) =
          ',' :: ' ' :: ((serVal y ++ serArrRest ys) ++ rest) from
        skipWs_of_headNotWs (by simp [headNotWs, wsChar])]
      simp only [show skipWs (' ' :: ((serVal y ++ serArrRest ys) ++ rest)) =
          (serVal y ++ serArrRest ys) ++ rest from by
        rw [skipWs_cons_ws (by decide), List.append_assoc]
        exact skipWs_of_headNotWs (headNotWs_append (serVal_headNotWs y))]
      rw [parseArr_ser f y ys rest
        (by have := jsize_pos x; simp [sizeL] at hf ⊢; omega)]
      rfl
termination_by f
theorem parseObj_ser (f : Nat) (m : String × JVal) (ms : List (String × JVal))
    (rest : List Char) (hf : sizeO (m :: ms) ≤ f) :
    parseObjItems f
      ((serStr m.1 ++ ':' :: ' ' :: (serVal m.2 ++ serObjRest ms)) ++ rest) =
      some (m :: ms, rest) := by
  cases f with
  | zero =>
    simp [sizeO] at hf
  | succ f =>
    have hx : (serStr m.1 ++ ':' :: ' ' :: (serVal m.2 ++ serObjRest ms))
        ++ rest =
        '"' :: ((m.1.data.map escChar).flatten ++
          ('"' :: (':' :: ' ' :: ((serVal m.2 ++ serObjRest ms) ++ rest)))) := by
      simp [serStr]
    rw [hx]
    simp only [parseObjItems]
    rw [parseStrAux_escape m.1.data []]
    simp only [List.reverse_nil, List.nil_append]
    simp only [show skipWs (':' :: ' ' ::
        ((serVal m.2 ++ serObjRest ms) ++ rest)) =
        ':' :: ' ' :: ((serVal m.2 ++ serObjRest ms) ++ rest) from
      skipWs_of_headNotWs (by simp [headNotWs, wsChar])]
    simp only [show skipWs (' ' :: ((serVal m.2 ++ serObjRest ms) ++ rest)) =
        serVal m.2 ++ (serObjRest ms ++ rest) from by
      rw [skipWs_cons_ws (by decide), List.append_assoc]
      exact skipWs_of_headNotWs (headNotWs_append (serVal_headNotWs m.2))]
    rw [parseVal_ser f m.2 (serObjRest ms ++ rest)
      (by have := sizeO_pos ms; simp [sizeO] at hf; omega)
      (numOk_objRest m.2 ms rest)]
    cases ms with
    | nil => simp [serObjRest, skipWs, wsChar]
    | cons m2 ms2 =>
      have hso : serObjRest (m2 :: ms2) ++ rest =
          ',' :: ' ' :: ((serStr m2.1 ++ ':' :: ' ' ::
            (serVal m2.2 ++ serObjRest ms2)) ++ rest) := by
        simp [serObjRest]
      rw [hso]
      simp only [show skipWs (',' :: ' ' :: ((serStr m2.1 ++ ':' :: ' ' ::
          (serVal m2.2 ++ serObjRest ms2)) ++ rest)) =
          ',' :: ' ' :: ((serStr m2.1 ++ ':' :: ' ' ::
            (serVal m2.2 ++ serObjRest ms2)) ++ rest) from
        skipWs_of_headNotWs (by simp [headNotWs, wsChar])]
      simp only [show skipWs (' ' :: ((serStr m2.1 ++ ':' :: ' ' ::
          (serVal m2.2 ++ serObjRest ms2)) ++ rest)) =
          (serStr m2.1 ++ ':' :: ' ' :: (serVal m2.2 ++ serObjRest ms2))
            ++ rest from by
        rw [skipWs_cons_ws (by decide)]
        exact skipWs_of_headNotWs (headNotWs_append (by
          simp [serStr, headNotWs, wsChar]))]
      rw [parseObj_ser f m2 ms2 rest
        (by have := jsize_pos m.2; simp [sizeO] at hf ⊢; omega)]
      rfl
termination_by f
end

theorem skipWs_nil : skipWs [] = [] := rfl

theorem jsonLoads_ser (v : JVal) :
    jsonLoads (String.mk (serVal v)) = some v := by
  unfold jsonLoads
  have hdata : (String.mk (serVal v)).data = serVal v := rfl
  rw [hdata]
  have hfuel : jsize v ≤ 2 * (serVal v).length + 2 := jsize_le_serVal v
  have hp : parseVal (2 * (serVal v).length + 2) (serVal v ++ []) =
      some (v, []) := parseVal_ser _ v [] hfuel (numOk_nil v)
  rw [List.append_nil] at hp
  rw [hp]
  simp [skipWs]

theorem findIdx?_first {p : Char → Bool} :
    ∀ (a : List Char) (c : Char) (t : List Char) (i : Nat),
      (∀ x ∈ a, p x = false) → p c = true →
      List.findIdx? p (a ++ c :: t) i = some (i + a.length) := by
  intro a
  induction a with
  | nil =>
    intro c t i ha hc
    simp [List.findIdx?_cons, hc]
  | cons x a ih =>
    intro c t i ha hc
    have hx : p x = false := ha x (by simp)
    simp only [List.cons_append, List.findIdx?_cons, hx, Bool.false_eq_true,
      if_false]
    rw [ih c t (i + 1) (fun y hy => ha y (by simp [hy])) hc]
    congr 1
    simp
    omega

theorem splitFirst_none {cs pat : List Char} {p0 : Char} {pt : List Char}
    (hpat : pat = p0 :: pt) (h : p0 ∉ cs) : splitFirst cs pat = Option.none := by
  induction cs with
  | nil => simp [splitFirst, hpat]
  | cons c t ih =>
    have hc : ¬ (pat.isPrefixOf (c :: t) = true) := by
      rw [hpat]
      simp only [List.isPrefixOf_cons₂]
      intro hcontra
      rw [Bool.and_eq_true, beq_iff_eq] at hcontra
      exact h (by simp [hcontra.1])
    simp only [splitFirst, hc, if_false]
    rw [ih (fun hmem => h (by simp [hmem]))]
    rfl

theorem fenceCands_of_no_tick {cs : List Char} (tag : List Char)
    (h : '`' ∉ cs) : fenceCands tag cs = [] := by
  show fenceCandsAux tag (cs.length + 1) cs = []
  simp [fenceCandsAux, splitFirst_none rfl h]

theorem dropWhile_ws_append {a b : List Char} (hb : headNotWs b = true) :
    List.dropWhile wsChar (a ++ b) = List.dropWhile wsChar a ++ b := by
  induction a with
  | nil =>
    simp [dropWhile_ws_not hb]
  | cons x a ih =>
    by_cases hx : wsChar x = true
    · simp [List.dropWhile_cons, hx, ih]
    · simp only [Bool.not_eq_true] at hx
      simp [List.dropWhile_cons, hx]

theorem trimChars_sandwich {mid : List Char} (pre post : List Char)
    (h1 : headNotWs mid = true) (h2 : headNotWs mid.reverse = true) :
    trimChars (pre ++ (mid ++ post)) =
      List.dropWhile wsChar pre ++
        (mid ++ (List.dropWhile wsChar post.reverse).reverse) := by
  unfold trimChars
  rw [dropWhile_ws_append (headNotWs_append h1)]
  rw [List.reverse_append, List.reverse_append]
  rw [List.append_assoc]
  rw [dropWhile_ws_append (headNotWs_append h2)]
  simp [List.reverse_append, List.reverse_reverse, List.append_assoc]

theorem serObjRest_last (ms : List (String × JVal)) :
    ∃ B, serObjRest ms = B ++ ['}'] := by
  cases ms with
  | nil => exact ⟨[], rfl⟩
  | cons m t =>
    obtain ⟨B, hB⟩ := serObjRest_last t
    refine ⟨',' :: ' ' :: (serStr m.1 ++ ':' :: ' ' :: (serVal m.2 ++ B)), ?_⟩
    simp [serObjRest, hB]

theorem serObj_ends (kvs : List (String × JVal)) :
    ∃ B, serVal (.jobj kvs) = B ++ ['}'] := by
  cases kvs with
  | nil => exact ⟨['{'], rfl⟩
  | cons m t =>
    obtain ⟨B, hB⟩ := serObjRest_last t
    refine ⟨'{' :: (serStr m.1 ++ ':' :: ' ' :: (serVal m.2 ++ B)), ?_⟩
    simp [serVal, hB]

theorem serObj_starts (kvs : List (String × JVal)) :
    ∃ t, serVal (.jobj kvs) = '{' :: t := by
  cases kvs with
  | nil => exact ⟨['}'], rfl⟩
  | cons m t => exact ⟨_, rfl⟩

theorem serObj_len (kvs : List (String × JVal)) :
    2 ≤ (serVal (.jobj kvs)).length := by
  cases kvs with
  | nil => simp [serVal]
  | cons m t =>
    simp only [serVal, serStr, List.length_cons, List.length_append]
    omega

theorem braceSlice_sandwich {mid : List Char} (pre post : List Char)
    (hpre : ∀ c ∈ pre, (c == '{') = false)
    (hpost : ∀ c ∈ post, (c == '}') = false)
    (hh : ∃ t, mid = '{' :: t) (hl : ∃ B, mid = B ++ ['}'])
    (hlen : 2 ≤ mid.length) :
    braceSlice (pre ++ (mid ++ post)) = some mid := by
  obtain ⟨t, ht⟩ := hh
  obtain ⟨B, hB⟩ := hl
  have hfind1 : List.findIdx? (fun c => c == '{') (pre ++ (mid ++ post)) =
      some pre.length := by
    rw [ht, show ('{' :: t) ++ post = '{' :: (t ++ post) from rfl,
      findIdx?_first pre '{' (t ++ post) 0 hpre (by decide)]
    simp
  have hrev : (pre ++ (mid ++ post)).reverse =
      post.reverse ++ ('}' :: (B.reverse ++ pre.reverse)) := by
    rw [hB]
    simp [List.reverse_append, List.append_assoc]
  have hfind2 : List.findIdx? (fun c => c == '}')
      (pre ++ (mid ++ post)).reverse = some post.length := by
    rw [hrev, findIdx?_first post.reverse '}' _ 0
      (fun x hx => hpost x (List.mem_reverse.mp hx)) (by decide)]
    simp
  unfold braceSlice
  rw [hfind1, hfind2]
  have hj : (pre ++ (mid ++ post)).length - 1 - post.length =
      pre.length + (mid.length - 1) := by
    simp only [List.length_append]
    omega
  simp only [hj]
  rw [if_pos (by omega : pre.length < pre.length + (mid.length - 1))]
  rw [List.drop_left]
  have harith : pre.length + (mid.length - 1) + 1 - pre.length =
      mid.length := by omega
  rw [harith, List.take_left]

theorem trimChars_self {mid : List Char} (h1 : headNotWs mid = true)
    (h2 : headNotWs mid.reverse = true) : trimChars mid = mid := by
  have h := @trimChars_sandwich mid [] [] h1 h2
  simpa using h

theorem serObj_rev_headNotWs (kvs : List (String × JVal)) :
    headNotWs (serVal (.jobj kvs)).reverse = true := by
  obtain ⟨B, hB⟩ := serObj_ends kvs
  rw [hB]
  simp [List.reverse_append, headNotWs, wsChar]

/-- C4 roundtrip core: the parser output on an embedded serialized object,
as a function of its `tool_name` lookup. -/
theorem parse_tool_call_embed (kvs : List (String × JVal))
    (pre post : List Char)
    (hpre : ∀ c ∈ pre, c ≠ '{' ∧ c ≠ '}' ∧ c ≠ '`')
    (hpost : ∀ c ∈ post, c ≠ '{' ∧ c ≠ '}' ∧ c ≠ '`')
    (htick : ∀ c ∈ serVal (.jobj kvs), c ≠ '`') :
    parse_tool_call_from_json
        (String.mk (pre ++ (serVal (.jobj kvs) ++ post))) =
      (match jobjGet kvs "tool_name" with
       | some _ =>
           some ⟨(jobjGet kvs "tool_name").getD .jnull,
                 (jobjGet kvs "tool_args").getD (.jobj []),
                 (jobjGet kvs "reasoning").getD (.jstr "")⟩
       | Option.none => Option.none) := by
  obtain ⟨t, ht⟩ := serObj_starts kvs
  have hh1 : headNotWs (serVal (.jobj kvs)) = true := serVal_headNotWs _
  have hh2 := serObj_rev_headNotWs kvs
  have htrim := @trimChars_sandwich (serVal (JVal.jobj kvs)) pre post hh1 hh2
  have hpre' : ∀ c ∈ List.dropWhile wsChar pre, c ≠ '{' ∧ c ≠ '}' ∧ c ≠ '`' :=
    fun c hc => hpre c ((List.dropWhile_sublist _).subset hc)
  have hpost' : ∀ c ∈ (List.dropWhile wsChar post.reverse).reverse,
      c ≠ '{' ∧ c ≠ '}' ∧ c ≠ '`' := by
    intro c hc
    exact hpost c (List.mem_reverse.mp
      ((List.dropWhile_sublist _).subset (List.mem_reverse.mp hc)))
  have hdata : (String.mk (pre ++ (serVal (.jobj kvs) ++ post))).data =
      pre ++ (serVal (.jobj kvs) ++ post) := rfl
  have hne : (pre ++ (serVal (.jobj kvs) ++ post)).isEmpty = false := by
    rw [ht]
    cases pre <;> simp
  simp only [parse_tool_call_from_json, hdata, hne, Bool.false_eq_true,
    if_false]
  rw [htrim]
  have htickcs : '`' ∉ List.dropWhile wsChar pre ++
      (serVal (.jobj kvs) ++ (List.dropWhile wsChar post.reverse).reverse) := by
    intro hmem
    rcases List.mem_append.mp hmem with h | h
    · exact (hpre' _ h).2.2 rfl
    · rcases List.mem_append.mp h with h | h
      · exact htick _ h rfl
      · exact (hpost' _ h).2.2 rfl
  rw [fenceCands_of_no_tick _ htickcs, fenceCands_of_no_tick _ htickcs]
  rw [braceSlice_sandwich _ _
    (fun c hc => beq_eq_false_iff_ne.mpr (hpre' c hc).1)
    (fun c hc => beq_eq_false_iff_ne.mpr (hpost' c hc).2.1)
    ⟨t, ht⟩ (serObj_ends kvs) (serObj_len kvs)]
  simp only [List.nil_append, List.findSome?_cons]
  have htry : tryCandidate (serVal (.jobj kvs)) =
      (match jobjGet kvs "tool_name" with
       | some _ =>
           some ⟨(jobjGet kvs "tool_name").getD .jnull,
                 (jobjGet kvs "tool_args").getD (.jobj []),
                 (jobjGet kvs "reasoning").getD (.jstr "")⟩
       | Option.none => Option.none) := by
    simp only [tryCandidate]
    rw [trimChars_self hh1 hh2, ht]
    show ((match jsonLoads (String.mk ('{' :: t)) with
      | some (.jobj kvs) =>
        (match jobjGet kvs "tool_name" with
         | some _ =>
             some (ToolCallRecord.mk
                   ((jobjGet kvs "tool_name").getD .jnull)
                   ((jobjGet kvs "tool_args").getD (.jobj []))
                   ((jobjGet kvs "reasoning").getD (.jstr "")))
         | Option.none => Option.none)
      | _ => Option.none) : Option ToolCallRecord) = _
    rw [show String.mk ('{' :: t) = String.mk (serVal (.jobj kvs)) from by
      rw [ht], jsonLoads_ser]
  rw [htry]
  cases jobjGet kvs "tool_name" <;> simp

theorem C4_counterexample :
    parse_tool_call_from_json
        (String.mk ("reply: ".data ++ (serVal (.jobj c4kvs) ++ " \x7d".data))) =
      Option.none ∧
    jobjGet c4kvs "tool_name" = some (.jstr "list_patients") := by
  constructor <;> rfl

theorem C4_parser_roundtrip_amended (kvs : List (String × JVal))
    (pre post : List Char)
    (hpre : ∀ c ∈ pre, c ≠ '{' ∧ c ≠ '}' ∧ c ≠ '`')
    (hpost : ∀ c ∈ post, c ≠ '{' ∧ c ≠ '}' ∧ c ≠ '`')
    (htick : ∀ c ∈ serVal (.jobj kvs), c ≠ '`') :
    (jobjGet kvs "tool_name" ≠ Option.none →
      parse_tool_call_from_json
          (String.mk (pre ++ (serVal (.jobj kvs) ++ post))) =
        some ⟨(jobjGet kvs "tool_name").getD .jnull,
              (jobjGet kvs "tool_args").getD (.jobj []),
              (jobjGet kvs "reasoning").getD (.jstr "")⟩) ∧
    (jobjGet kvs "tool_name" = Option.none →
      parse_tool_call_from_json
          (String.mk (pre ++ (serVal (.jobj kvs) ++ post))) =
        Option.none) := by
  have h := parse_tool_call_embed kvs pre post hpre hpost htick
  constructor
  · intro hn
    rcases he : jobjGet kvs "tool_name" with _ | v
    · exact absurd he hn
    · rw [h, he]
  · intro hn
    rw [h, hn]

theorem C4_parser_roundtrip_witness :
    parse_tool_call_from_json
        (String.mk ("Model says: ".data ++
          (serVal (.jobj c4kvs) ++ " done.".data))) =
      some ⟨.jstr "list_patients", .jobj [("limit", .jnum 3)], .jstr ""⟩ :=
  (C4_parser_roundtrip_amended c4kvs "Model says: ".data " done.".data
    (by decide) (by decide) (by decide)).1
    (fun h => Option.noConfusion h)


/-- Shape of `markCurDone`: only the task list changes. -/
theorem markCurDone_shape (st : AgentState) :
    ∃ ts, markCurDone st = { st with tasks := ts } := by
  unfold markCurDone
  split
  · exact ⟨_, rfl⟩
  · exact ⟨st.tasks, rfl⟩

/-- Shape of `optStateAfter`: only the optimizer counter changes. -/
theorem optStateAfter_shape (cfg : AgentConfig) (env : AgentEnv)
    (st : AgentState) (call : AgentToolCall) :
    ∃ n, optStateAfter cfg env st call = { st with optIdx := n } := by
  unfold optStateAfter
  split
  · exact ⟨st.optIdx, rfl⟩
  · split
    · exact ⟨st.optIdx + 1, rfl⟩
    · exact ⟨st.optIdx, rfl⟩

/-- The retry-accounting step relation between two loop states: the retry
counter is monotone and bounded by the budget relative to its starting
value, retry-context creations in the trace grow in lockstep with the
counter, and the consumption inequality (context-bearing action-selection
calls plus the pending context never exceed creations) is preserved. -/
def C6Step (cfg : AgentConfig) (st st1 : AgentState) : Prop :=
  st.retryCount ≤ st1.retryCount ∧
  st1.retryCount ≤ max st.retryCount cfg.maxRetriesOnNoData ∧
  countRetryCreated st1.trace + st.retryCount
    = countRetryCreated st.trace + st1.retryCount ∧
  (countAskCtx st.trace + pendingCtx st ≤ countRetryCreated st.trace →
    countAskCtx st1.trace + pendingCtx st1 ≤ countRetryCreated st1.trace)

theorem C6Step_refl (cfg : AgentConfig) (st : AgentState) : C6Step cfg st st := by
  refine ⟨le_refl _, ?_, rfl, fun h => h⟩
  exact le_max_left _ _

theorem C6Step_trans (cfg : AgentConfig) (st st1 st2 : AgentState)
    (h1 : C6Step cfg st st1) (h2 : C6Step cfg st1 st2) : C6Step cfg st st2 := by
  obtain ⟨a1, b1, c1, d1⟩ := h1
  obtain ⟨a2, b2, c2, d2⟩ := h2
  refine ⟨le_trans a1 a2, ?_, by omega, fun h => d2 (d1 h)⟩
  omega

/-- A state change that leaves the retry counter, the trace and the
pending retry context untouched is a retry-accounting step. -/
theorem C6Step_of_untouched (cfg : AgentConfig) (st st1 : AgentState)
    (h1 : st1.retryCount = st.retryCount) (h2 : st1.trace = st.trace)
    (h3 : st1.retryCtx = st.retryCtx) : C6Step cfg st st1 := by
  refine ⟨le_of_eq h1.symm, ?_, by rw [h1, h2], ?_⟩
  · rw [h1]; exact le_max_left _ _
  · intro h
    simp only [pendingCtx] at h ⊢
    rw [h2, h3]
    exact h

/-- A state change that preserves the retry counter, both event counts and
the pending context is a retry-accounting step. -/
theorem C6Step_of_counts (cfg : AgentConfig) (st st1 : AgentState)
    (h1 : st1.retryCount = st.retryCount)
    (h2 : countRetryCreated st1.trace = countRetryCreated st.trace)
    (h3 : countAskCtx st1.trace = countAskCtx st.trace)
    (h4 : pendingCtx st1 = pendingCtx st) : C6Step cfg st st1 := by
  refine ⟨le_of_eq h1.symm, ?_, by rw [h1, h2], ?_⟩
  · rw [h1]; exact le_max_left _ _
  · intro h
    rw [h2, h3, h4]
    exact h

/-- Handling one tool call is a retry-accounting step: the retry branch
(agent.py lines 443-457) is the only one that bumps the counter and it is
guarded by `retry_count < max_retries_on_no_data`; every branch appends at
most one `evRetryCreated` and no `evAsk`. -/
theorem processCall_C6Step (cfg : AgentConfig) (env : AgentEnv)
    (st : AgentState) (call : AgentToolCall) :
    C6Step cfg st (processCall cfg env st call).1 := by
  obtain ⟨n, hopt⟩ := optStateAfter_shape cfg env st call
  simp only [processCall, hopt]
  split
  · -- loop detection: the trace gains one non-retry, non-ask event
    refine C6Step_of_counts cfg st _ ?_ ?_ ?_ ?_ <;>
      · unfold markCurDone
        split <;>
          simp [pendingCtx, countRetryCreated, countAskCtx,
            List.countP_append, List.countP_cons, List.countP_nil]
  · split
    · -- known tool
      split
      · -- tool returned a value
        split
        · -- empty result within the retry budget
          rename_i hcond
          obtain ⟨_, hlt⟩ := hcond
          refine ⟨?_, ?_, ?_, ?_⟩
          · show st.retryCount ≤ st.retryCount + 1
            omega
          · show st.retryCount + 1 ≤ max st.retryCount cfg.maxRetriesOnNoData
            omega
          · simp [countRetryCreated, List.countP_append, List.countP_cons,
              List.countP_nil]
            omega
          · intro h
            have h2 : countAskCtx st.trace ≤ countRetryCreated st.trace := by
              cases hc : st.retryCtx <;> simp [pendingCtx, hc] at h <;> omega
            simp [pendingCtx, countAskCtx, countRetryCreated,
              List.countP_append, List.countP_cons, List.countP_nil] at h2 ⊢
            omega
        · -- usable result: output recorded, counters advanced
          refine C6Step_of_counts cfg st _ rfl ?_ ?_ rfl <;>
            simp [incSteps, countRetryCreated, countAskCtx,
              List.countP_append, List.countP_cons, List.countP_nil]
      · -- tool raised
        refine C6Step_of_counts cfg st _ rfl ?_ ?_ rfl <;>
          simp [incSteps, countRetryCreated, countAskCtx,
            List.countP_append, List.countP_cons, List.countP_nil]
    · -- unknown tool
      exact C6Step_of_untouched cfg st _ rfl rfl rfl

/-- The tool-call loop is a retry-accounting step. -/
theorem execCalls_C6Step (cfg : AgentConfig) (env : AgentEnv)
    (calls : List AgentToolCall) :
    ∀ st, C6Step cfg st (execCalls cfg env calls st) := by
  induction calls with
  | nil =>
    intro st
    simp only [execCalls]
    exact C6Step_refl cfg st
  | cons c rest ih =>
    intro st
    simp only [execCalls]
    split
    · exact C6Step_refl cfg st
    · rcases hp : processCall cfg env st c with ⟨st1, out⟩
      have h1 : C6Step cfg st st1 := by
        have h2 := processCall_C6Step cfg env st c
        rw [hp] at h2
        exact h2
      rcases out with _ | _
      · simp only [hp]
        exact C6Step_trans cfg st st1 _ h1 (ih st1)
      · simp only [hp]
        exact h1

/-- The state reached after the timestamp bump, the action-selection call
and the context clear of one inner-loop iteration. -/
def postAskState (env : AgentEnv) (st : AgentState) : AgentState :=
  { (askForActions env { st with clockIdx := st.clockIdx + 1 }).2 with
    retryCtx := Option.none }

/-- Selecting an action and clearing the retry context is a
retry-accounting step: the recorded `evAsk` carries the pending context,
which is cleared in the same stroke. -/
theorem reach_postAsk (cfg : AgentConfig) (env : AgentEnv) (st : AgentState) :
    C6Step cfg st (postAskState env st) := by
  refine ⟨le_refl _, le_max_left _ _, ?_, ?_⟩
  · simp [postAskState, askForActions, countRetryCreated,
      List.countP_append, List.countP_cons, List.countP_nil]
  · intro h
    simp only [postAskState, askForActions, pendingCtx, countAskCtx,
      countRetryCreated, List.countP_append, List.countP_cons,
      List.countP_nil] at h ⊢
    cases hc : st.retryCtx <;> simp [hc] at h ⊢ <;> omega

/-- One activation of the inner step loop is a retry-accounting step: in
particular the retry counter never exceeds `max(initial, budget)` and the
trace gains exactly `final − initial` retry-context creations. -/
theorem innerLoop_C6Step (cfg : AgentConfig) (env : AgentEnv) (fuel : Nat) :
    ∀ st st1, innerLoop cfg env fuel st = some st1 → C6Step cfg st st1 := by
  induction fuel with
  | zero =>
    intro st st1 h
    exact absurd h (by simp [innerLoop])
  | succ n ih =>
    intro st st1 h
    simp only [innerLoop] at h
    split at h
    · split at h
      · -- timeout exit
        injection h with h
        subst h
        exact C6Step_of_untouched cfg st _ rfl rfl rfl
      · split at h
        · -- global budget exit
          injection h with h
          subst h
          exact C6Step_of_untouched cfg st _ rfl rfl rfl
        · split at h
          · -- AGENT_ERROR branch
            split at h
            · -- forced completion after three consecutive errors
              injection h with h
              subst h
              refine C6Step_trans cfg st _ _ (reach_postAsk cfg env st) ?_
              refine C6Step_of_untouched cfg _ _ ?_ ?_ ?_ <;>
                · unfold markCurDone
                  split <;> rfl
            · -- retry the action selection
              refine C6Step_trans cfg st _ _ (reach_postAsk cfg env st) ?_
              refine C6Step_trans cfg _ _ _
                (C6Step_of_untouched cfg _
                  { postAskState env st with
                    agentErrors := (postAskState env st).agentErrors + 1 }
                  rfl rfl rfl) ?_
              exact ih _ st1 h
          · split at h
            · -- no tool calls: task complete
              injection h with h
              subst h
              refine C6Step_trans cfg st _ _ (reach_postAsk cfg env st) ?_
              refine C6Step_of_untouched cfg _ _ ?_ ?_ ?_ <;>
                · unfold markCurDone
                  split <;> rfl
            · -- tool calls executed, then the task validator
              split at h
              · -- validator approved
                injection h with h
                subst h
                refine C6Step_trans cfg st _ _ (reach_postAsk cfg env st) ?_
                refine C6Step_trans cfg _ _ _
                  (C6Step_of_untouched cfg _
                    { postAskState env st with agentErrors := 0 } rfl rfl rfl) ?_
                refine C6Step_trans cfg _ _ _
                  (execCalls_C6Step cfg env
                    (askForActions env
                      { st with clockIdx := st.clockIdx + 1 }).1.toolCalls _) ?_
                refine C6Step_trans cfg _ _ _
                  (C6Step_of_untouched cfg _ (askIfDone env _).2 rfl rfl rfl) ?_
                refine C6Step_of_untouched cfg _ _ ?_ ?_ ?_ <;>
                  · unfold markCurDone
                    split <;> rfl
              · -- validator declined: next iteration
                refine C6Step_trans cfg st _ _ (reach_postAsk cfg env st) ?_
                refine C6Step_trans cfg _ _ _
                  (C6Step_of_untouched cfg _
                    { postAskState env st with agentErrors := 0 } rfl rfl rfl) ?_
                refine C6Step_trans cfg _ _ _
                  (execCalls_C6Step cfg env
                    (askForActions env
                      { st with clockIdx := st.clockIdx + 1 }).1.toolCalls _) ?_
                refine C6Step_trans cfg _ _ _
                  (C6Step_of_untouched cfg _ (askIfDone env _).2 rfl rfl rfl) ?_
                exact ih _ st1 h
    · -- per-task budget exhausted: loop exit
      injection h with h
      subst h
      exact C6Step_refl cfg st

/-- The consumption inequality: context-bearing action-selection calls
plus the pending retry context never exceed retry-context creations. -/
def C6Inv (st : AgentState) : Prop :=
  countAskCtx st.trace + pendingCtx st ≤ countRetryCreated st.trace

/-- The outer task loop preserves the consumption inequality: each
activation resets the pending context and the inner loop preserves it. -/
theorem outerLoop_C6Inv (cfg : AgentConfig) (env : AgentEnv) (fuel : Nat) :
    ∀ st st1, outerLoop cfg env fuel st = some st1 → C6Inv st → C6Inv st1 := by
  induction fuel with
  | zero =>
    intro st st1 h
    exact absurd h (by simp [outerLoop])
  | succ n ih =>
    intro st st1 h hInv
    simp only [outerLoop] at h
    split at h
    · split at h
      · -- global budget exit
        injection h with h
        subst h
        exact hInv
      · -- activate the next task
        have hreset : C6Inv { st with
            curIdx := firstNotDoneIdx st.tasks,
            clockIdx := st.clockIdx + 1, perTaskSteps := 0,
            taskStepOutputs := [], retryCount := 0,
            retryCtx := Option.none, agentErrors := 0,
            taskStart := env.clock st.clockIdx } := by
          simp only [C6Inv, pendingCtx] at hInv ⊢
          simp only [Option.isSome_none, Bool.false_eq_true, if_false]
          cases hc : st.retryCtx <;> simp [hc] at hInv <;> omega
        split at h
        · -- inner loop ran out of fuel in the model
          exact absurd h (by simp)
        · rename_i st2 heq
          have h2 : C6Inv st2 :=
            (innerLoop_C6Step cfg env n _ st2 heq).2.2.2 hreset
          split at h
          · split at h
            · -- goal achieved: exit
              injection h with h
              subst h
              exact h2
            · -- goal not achieved: next task
              exact ih _ st1 h h2
          · -- task incomplete: next activation
            exact ih _ st1 h h2
    · -- all tasks done
      injection h with h
      subst h
      exact hInv

/-- Each retry context threaded into an action-selection call was created
by the empty-result retry path: over a whole run, context-bearing
action-selection calls never outnumber retry-context creations. -/
theorem runAgentState_askCtx (cfg : AgentConfig) (env : AgentEnv)
    (fuel : Nat) (query : String) (st : AgentState)
    (h : runAgentState cfg env fuel query = some st) :
    countAskCtx st.trace ≤ countRetryCreated st.trace := by
  have h0 : ∀ ts, C6Inv (initialState ts) := by
    intro ts
    simp [C6Inv, initialState, countAskCtx, countRetryCreated, pendingCtx]
  simp only [runAgentState] at h
  split at h
  · injection h with h
    subst h
    simp [initialState, countAskCtx, countRetryCreated]
  · have h2 := outerLoop_C6Inv cfg env fuel _ st h (h0 _)
    simp only [C6Inv, pendingCtx] at h2
    cases hc : st.retryCtx <;> simp [hc] at h2 <;> omega

/-- Claim C6 counterexample: with `max_steps_per_task = 1` and a retry
budget of 2, a tool that always returns `{"patients": []}` drives two
retry-context creations per activation of the task and nothing marks the
task done, so its second activation resets `retry_count` (agent.py line
336) and creates two more: four retry contexts for the one task of the
run, exceeding the claimed per-task bound of two. -/
theorem C6_counterexample :
    (runAgentState cfgRetry envRetry 40 "q").map
      (fun st => countRetryCreated st.trace) = some 4 ∧
    cfgRetry.maxRetriesOnNoData = 2 ∧
    (runAgentState cfgRetry envRetry 40 "q").map
      (fun st => st.tasks.length) = some 1 :=
  ⟨rfl, rfl, rfl⟩

/-- Claim C6 (amended): the retry budget holds per task activation, not
per task — one activation of the inner loop (which starts with
`retry_count = 0`) creates at most `max_retries_on_no_data` retry
contexts; and consumption matches creation: over a whole run, each
action-selection call that received a retry context corresponds to a
distinct creation (the context is cleared to `None` immediately after
being passed), so such calls never outnumber creations. -/
theorem C6_retry_budget_amended :
    (∀ (cfg : AgentConfig) (env : AgentEnv) (fuel : Nat) (st st1 : AgentState),
      innerLoop cfg env fuel st = some st1 → st.retryCount = 0 →
      countRetryCreated st1.trace ≤
        countRetryCreated st.trace + cfg.maxRetriesOnNoData) ∧
    (∀ (cfg : AgentConfig) (env : AgentEnv) (fuel : Nat) (query : String)
      (st : AgentState), runAgentState cfg env fuel query = some st →
      countAskCtx st.trace ≤ countRetryCreated st.trace) := by
  constructor
  · intro cfg env fuel st st1 h h0
    obtain ⟨a, b, c, _⟩ := innerLoop_C6Step cfg env fuel st st1 h
    rw [h0] at b c
    omega
  · intro cfg env fuel query st h
    exact runAgentState_askCtx cfg env fuel query st h

/-- Claim C6 witness: a concrete inner-loop activation (the unknown-tool
environment) respects the per-activation retry bound, and the concrete
retry-heavy run satisfies the consumption inequality. -/
theorem C6_retry_budget_witness :
    (∃ st1, innerLoop ({} : AgentConfig) envUnknownTool 10
        (initialState [⟨1, "t", false⟩]) = some st1 ∧
      countRetryCreated st1.trace ≤
        countRetryCreated (initialState [⟨1, "t", false⟩]).trace +
          ({} : AgentConfig).maxRetriesOnNoData) ∧
    (∃ st, runAgentState cfgRetry envRetry 40 "q" = some st ∧
      countAskCtx st.trace ≤ countRetryCreated st.trace) := by
  constructor
  · obtain ⟨st1, h⟩ : ∃ st1, innerLoop ({} : AgentConfig) envUnknownTool 10
        (initialState [⟨1, "t", false⟩]) = some st1 := ⟨_, rfl⟩
    exact ⟨st1, h, C6_retry_budget_amended.1 ({} : AgentConfig) envUnknownTool
      10 _ st1 h rfl⟩
  · obtain ⟨st, h⟩ : ∃ st, runAgentState cfgRetry envRetry 40 "q" = some st :=
      ⟨_, rfl⟩
    exact ⟨st, h, C6_retry_budget_amended.2 cfgRetry envRetry 40 "q" st h⟩

/-- Claim C1 counterexample: an exception raised by the final answer LLM
call (`_generate_answer`, agent.py line 514, not wrapped in any
try/except) propagates out of `run`. -/
theorem C1_counterexample :
    Agent_run {} envAnswerFails 5 "q" = some (Except.error "connection refused") :=
  rfl

/-- Claim C1 (amended): exceptions raised by planning, action selection,
validation, argument optimization and tool execution are all absorbed
inside the loop, so whatever `run` returns is exactly the outcome of the
final answer call — the success string when it succeeds, its exception
when it raises. -/
theorem C1_run_returns_answer (cfg : AgentConfig) (env : AgentEnv)
    (fuel : Nat) (query : String) (r : Except String String)
    (h : Agent_run cfg env fuel query = some r) : r = env.answer := by
  simp only [Agent_run] at h
  rcases hs : runAgentState cfg env fuel query with _ | st
  · rw [hs] at h
    simp at h
  · rw [hs] at h
    simp only [Option.map_some'] at h
    injection h with h
    exact h.symm

/-- Claim C1 witness: in an environment where every LLM and tool oracle
raises except the final answer call, the run still returns the answer. -/
theorem C1_run_returns_answer_witness :
    Agent_run {} envAllFail 10 "q" = some envAllFail.answer ∧
    envAllFail.answer = Except.ok "The analysis" := by
  constructor
  · obtain ⟨r, hr⟩ : ∃ r, Agent_run {} envAllFail 10 "q" = some r := ⟨_, rfl⟩
    rw [hr, C1_run_returns_answer {} envAllFail 10 "q" r hr]
  · rfl

/-- Claim C2 counterexample: in a run whose first four selected actions
share the signature `A:x`, the detector trips (event 7 is the loop
detection, preceded by only three dispatches), yet the loop keeps running
the task — `task.done` does not end the inner `while`, whose condition
only checks `per_task_steps` — and the same action `A:x` is dispatched
again after the detection. -/
theorem C2_counterexample :
    (runAgentState cfgLoop envLoop 30 "q").map
      (fun st => (st.trace.get? 7, countDispatch (st.trace.take 8),
        countDispatchOf (st.trace.drop 8) 1 "A" "x")) =
    some (some (AgentEvent.evLoopDetected 1), 3, 1) :=
  rfl

/-- Claim C2 (amended): whenever pushing the action signature makes the
ring hold four identical entries, handling that tool call marks the
current task done, breaks out of the tool-call loop, and does not dispatch
the call: no dispatch event and no tool execution happen.  (The claim's
parenthetical — no further dispatch of the repeated action within the task
— is refuted by `C2_counterexample`: the inner loop continues stepping the
already-done task.) -/
theorem C2_loop_detection_amended (cfg : AgentConfig) (env : AgentEnv)
    (st : AgentState) (call : AgentToolCall)
    (hcur : st.curIdx < st.tasks.length)
    (hdet : ringDetect (pushRing st.lastActions
      (call.name ++ ":" ++ optimizedArgsOf cfg env st call)) = true) :
    (processCall cfg env st call).2 = CallOutcome.brk ∧
    ((processCall cfg env st call).1.tasks.get? st.curIdx).map
      (fun t => t.done) = some true ∧
    countDispatch (processCall cfg env st call).1.trace
      = countDispatch st.trace ∧
    (processCall cfg env st call).1.toolIdx = st.toolIdx := by
  obtain ⟨n, hopt⟩ := optStateAfter_shape cfg env st call
  have hget : st.tasks.get? st.curIdx = some (st.tasks.get ⟨st.curIdx, hcur⟩) := by
    rw [List.get?_eq_getElem?, List.getElem?_eq_getElem hcur]
    rfl
  simp only [processCall, hopt, hdet, if_true]
  refine ⟨?_, ?_, ?_, ?_⟩
  · trivial
  · unfold markCurDone
    simp only [hget]
    rw [List.get?_eq_getElem?, List.getElem?_set_self hcur]
    rfl
  · unfold markCurDone
    split <;>
      simp [countDispatch, List.countP_append, List.countP_cons,
        List.countP_nil]
  · unfold markCurDone
    split <;> rfl

/-- Claim C2 witness: with three prior `A:x` signatures and a fourth
`A:x` call, the detector fires: the handler breaks, marks the task done,
dispatches nothing. -/
theorem C2_loop_detection_witness :
    (processCall cfgLoop envLoop stLoopW ⟨"A", "x"⟩).2 = CallOutcome.brk ∧
    ((processCall cfgLoop envLoop stLoopW ⟨"A", "x"⟩).1.tasks.get?
      stLoopW.curIdx).map (fun t => t.done) = some true ∧
    countDispatch (processCall cfgLoop envLoop stLoopW ⟨"A", "x"⟩).1.trace
      = countDispatch stLoopW.trace ∧
    (processCall cfgLoop envLoop stLoopW ⟨"A", "x"⟩).1.toolIdx
      = stLoopW.toolIdx :=
  C2_loop_detection_amended cfgLoop envLoop stLoopW ⟨"A", "x"⟩
    (by decide) (by decide)

/-- Claim C5 counterexample: a run whose one tool call names an
unregistered tool `foo` finishes with `"Invalid tool: foo"` in the log
only — the tool-output history stays empty — while the loop continues and
the step counter advanced once. -/
theorem C5_counterexample :
    (runAgentState {} envUnknownTool 10 "q").map
      (fun st => (st.logs, st.taskOutputs, st.taskStepOutputs, st.stepCount)) =
    some (["Executing tool: foo with args: x", "Invalid tool: foo"],
      [], [], 1) :=
  rfl

/-- Claim C5 (amended): a tool call naming a tool not in the registry is
handled without failing — the string `"Invalid tool: <name>"` is written
to the logger (agent.py line 465), NOT to the tool-output history, the
tool-call loop proceeds, and the step counters still advance for that
call; no tool is executed and no dispatch is recorded. -/
theorem C5_unknown_tool_amended (cfg : AgentConfig) (env : AgentEnv)
    (st : AgentState) (call : AgentToolCall)
    (hdet : ringDetect (pushRing st.lastActions
      (call.name ++ ":" ++ optimizedArgsOf cfg env st call)) = false)
    (hreg : env.registry.contains call.name = false) :
    (processCall cfg env st call).2 = CallOutcome.proceed ∧
    (processCall cfg env st call).1.stepCount = st.stepCount + 1 ∧
    (processCall cfg env st call).1.perTaskSteps = st.perTaskSteps + 1 ∧
    (processCall cfg env st call).1.taskOutputs = st.taskOutputs ∧
    (processCall cfg env st call).1.taskStepOutputs = st.taskStepOutputs ∧
    (processCall cfg env st call).1.logs = st.logs ++
      [s!"Executing tool: {call.name} with args: {call.args}",
       s!"Invalid tool: {call.name}"] ∧
    (processCall cfg env st call).1.trace = st.trace ∧
    (processCall cfg env st call).1.toolIdx = st.toolIdx := by
  obtain ⟨n, hopt⟩ := optStateAfter_shape cfg env st call
  simp only [processCall, hopt, hdet, hreg, Bool.false_eq_true, if_false,
    incSteps]
  refine ⟨?_, ?_, ?_, ?_, ?_, ?_, ?_, ?_⟩ <;>
    first
      | trivial
      | simp

/-- Claim C5 witness: the concrete unknown-tool call `foo` on the fresh
session state. -/
theorem C5_unknown_tool_witness :
    (processCall {} envUnknownTool (initialState [⟨1, "t", false⟩])
      ⟨"foo", "x"⟩).2 = CallOutcome.proceed ∧
    (processCall {} envUnknownTool (initialState [⟨1, "t", false⟩])
      ⟨"foo", "x"⟩).1.stepCount = (initialState [⟨1, "t", false⟩]).stepCount + 1 ∧
    (processCall {} envUnknownTool (initialState [⟨1, "t", false⟩])
      ⟨"foo", "x"⟩).1.perTaskSteps
      = (initialState [⟨1, "t", false⟩]).perTaskSteps + 1 ∧
    (processCall {} envUnknownTool (initialState [⟨1, "t", false⟩])
      ⟨"foo", "x"⟩).1.taskOutputs = (initialState [⟨1, "t", false⟩]).taskOutputs ∧
    (processCall {} envUnknownTool (initialState [⟨1, "t", false⟩])
      ⟨"foo", "x"⟩).1.taskStepOutputs
      = (initialState [⟨1, "t", false⟩]).taskStepOutputs ∧
    (processCall {} envUnknownTool (initialState [⟨1, "t", false⟩])
      ⟨"foo", "x"⟩).1.logs = (initialState [⟨1, "t", false⟩]).logs ++
      ["Executing tool: foo with args: x", "Invalid tool: foo"] ∧
    (processCall {} envUnknownTool (initialState [⟨1, "t", false⟩])
      ⟨"foo", "x"⟩).1.trace = (initialState [⟨1, "t", false⟩]).trace ∧
    (processCall {} envUnknownTool (initialState [⟨1, "t", false⟩])
      ⟨"foo", "x"⟩).1.toolIdx = (initialState [⟨1, "t", false⟩]).toolIdx :=
  C5_unknown_tool_amended {} envUnknownTool (initialState [⟨1, "t", false⟩])
    ⟨"foo", "x"⟩ (by decide) (by decide)

end Theorems
